import Mathlib

/-! cartogopher, reader.go.

A shallow embedding of `reader.go` (package cartogopher): the header index map,
the translation of one positional record into a name-keyed record, and the
`Read` / `ReadAll` / `NewReader` operations built on a positional CSV reader.

Modelling choices:

* Go strings are `String`, slices are `List`, and the non-negative `int`
  positions produced by `range` are `Nat`.
* A Go map is a list of key/value entries in which no key occurs twice.
  `GoMap.set` is the assignment `m[k] = v`, `GoMap.get?` is the lookup
  `v, ok := m[k]`.
* A Go run-time panic (here only an index out of range) is the `error` side of
  `Except GoPanic`; a returned `error` value is an `Option GoError`
  (`none` is `nil`).  A `nil` map or slice result is `none`.
* `encoding/csv` is not part of the repository.  A `csv.Reader` is represented
  by the outcomes its successive `Read` calls are going to produce; after the
  last one every read reports `io.EOF`.
-/

namespace Cartogopher

/-! ## Go maps -/

/-- Go map with string keys: its entries, each key at most once. -/
structure GoMap (V : Type) where
  entries : List (String × V)
deriving DecidableEq, Repr

/-- Lookup of a key in a list of entries. -/
def lookupEntries {V : Type} : List (String × V) → String → Option V
  | [], _ => none
  | (k, v) :: rest, key => if k = key then some v else lookupEntries rest key

/-- Assignment to a key in a list of entries: an existing entry is overwritten,
a new key gets a new entry. -/
def setEntries {V : Type} : List (String × V) → String → V → List (String × V)
  | [], key, val => [(key, val)]
  | (k, v) :: rest, key, val =>
    if k = key then (key, val) :: rest else (k, v) :: setEntries rest key val

/-- The empty map, `map[string]V{}` or `make(map[string]V, n)`. -/
def GoMap.empty {V : Type} : GoMap V := ⟨[]⟩

/-- The lookup `v, ok := m[key]`. -/
def GoMap.get? {V : Type} (m : GoMap V) (key : String) : Option V :=
  lookupEntries m.entries key

/-- The assignment `m[key] = val`. -/
def GoMap.set {V : Type} (m : GoMap V) (key : String) (val : V) : GoMap V :=
  ⟨setEntries m.entries key val⟩

/-- The keys of a map. -/
def GoMap.keys {V : Type} (m : GoMap V) : List String :=
  m.entries.map Prod.fst

/-- The builtin `len(m)`. -/
def GoMap.len {V : Type} (m : GoMap V) : Nat :=
  m.entries.length

/-- No key occurs in two entries. -/
def GoMap.WF {V : Type} (m : GoMap V) : Prop :=
  m.keys.Nodup

/-! ## Errors and panics -/

/-- Values of Go's `error` that the positional reader returns: `io.EOF`, or any
other error (a `*csv.ParseError`, an I/O error) identified by its text. -/
inductive GoError where
  | EOF
  | other (msg : String)
deriving DecidableEq, Repr

/-- Run-time panics of the embedded code: `csvRow[index]` with `index` not below
`len(csvRow)`. -/
inductive GoPanic where
  | indexOutOfRange
deriving DecidableEq, Repr

deriving instance DecidableEq for Except

/-! ## The positional reader (`encoding/csv`) -/

/-- What one call of `csv.Reader.Read` produces before the end of the source:
a record and a `nil` error, or a non-`nil` error (with whatever record the
reader hands back next to it). -/
inductive ReadOutcome where
  | record (fields : List String)
  | failure (fields : List String) (msg : String)
deriving DecidableEq, Repr

/-- The `csv.Reader`: the outcomes of the reads still to come. -/
structure CsvReader where
  pending : List ReadOutcome
deriving DecidableEq, Repr

/-- One `csv.Reader.Read`: the `(record, err)` pair and the advanced reader. -/
def CsvReader.Read (r : CsvReader) : (List String × Option GoError) × CsvReader :=
  match r.pending with
  | [] => (([], some GoError.EOF), r)
  | ReadOutcome.record fields :: rest => ((fields, none), ⟨rest⟩)
  | ReadOutcome.failure fields msg :: rest => ((fields, some (GoError.other msg)), ⟨rest⟩)

/-- The loop of `csv.Reader.ReadAll`: read until `io.EOF`, which ends the loop
with the records collected and a `nil` error; any other error ends it with no
records and that error. -/
def CsvReader.readAllLoop :
    List ReadOutcome → List (List String) → (List (List String) × Option GoError) × CsvReader
  | [], records => ((records, none), ⟨[]⟩)
  | ReadOutcome.record fields :: rest, records =>
    CsvReader.readAllLoop rest (records ++ [fields])
  | ReadOutcome.failure _ msg :: rest, _ => (([], some (GoError.other msg)), ⟨rest⟩)

/-- The bulk read `csv.Reader.ReadAll`. -/
def CsvReader.ReadAll (r : CsvReader) : (List (List String) × Option GoError) × CsvReader :=
  CsvReader.readAllLoop r.pending []

/-- An open `*os.File`, seen through the reader that `csv.NewReader` puts on it. -/
structure File where
  contents : List ReadOutcome
deriving DecidableEq, Repr

/-- The constructor `csv.NewReader(file)`. -/
def csvNewReader (file : File) : CsvReader :=
  ⟨file.contents⟩

/-! ## reader.go -/

/-- The struct `MapReader`. -/
structure MapReader where
  Headers : List String
  HeaderIndexMap : GoMap Nat
  Reader : CsvReader
deriving DecidableEq, Repr

/-- The zero value `&MapReader{}`: no headers, a `nil` map, a `nil` reader. -/
def MapReader.zero : MapReader :=
  { Headers := [], HeaderIndexMap := GoMap.empty, Reader := ⟨[]⟩ }

/-- The loop `for index, header := range headers` of `CreateHeaderIndexMap`,
from position `index` on. -/
def MapReader.rangeHeaders : List String → Nat → GoMap Nat → GoMap Nat
  | [], _, headerIndexMap => headerIndexMap
  | header :: rest, index, headerIndexMap =>
    MapReader.rangeHeaders rest (index + 1) (headerIndexMap.set header index)

/-- The method `CreateHeaderIndexMap`. -/
def MapReader.CreateHeaderIndexMap (_m : MapReader) (headers : List String) : GoMap Nat :=
  MapReader.rangeHeaders headers 0 GoMap.empty

/-- The loop `for header, index := range m.HeaderIndexMap` of `CreateRowMap`
over the entries still to visit: `result[header] = csvRow[index]`, a panic when
`index` is not a position of `csvRow`. -/
def MapReader.rangeIndexMap (csvRow : List String) :
    List (String × Nat) → GoMap String → Except GoPanic (GoMap String)
  | [], result => Except.ok result
  | (header, index) :: rest, result =>
    match csvRow[index]? with
    | none => Except.error GoPanic.indexOutOfRange
    | some field => MapReader.rangeIndexMap csvRow rest (result.set header field)

/-- The method `CreateRowMap`. -/
def MapReader.CreateRowMap (m : MapReader) (csvRow : List String) :
    Except GoPanic (GoMap String) :=
  MapReader.rangeIndexMap csvRow m.HeaderIndexMap.entries GoMap.empty

/-- The method `Read`: the returned `(map, error)` pair and the reader after the
call, or a panic. -/
def MapReader.Read (m : MapReader) :
    Except GoPanic ((Option (GoMap String) × Option GoError) × MapReader) :=
  match m.Reader.Read with
  | ((_, some err), reader) => Except.ok ((none, some err), { m with Reader := reader })
  | ((csvRow, none), reader) =>
    match m.CreateRowMap csvRow with
    | Except.error p => Except.error p
    | Except.ok row => Except.ok ((some row, none), { m with Reader := reader })

/-- The loop `for _, record := range records` of `ReadAll`. -/
def MapReader.rangeRecords (m : MapReader) :
    List (List String) → List (GoMap String) → Except GoPanic (List (GoMap String))
  | [], results => Except.ok results
  | record :: rest, results =>
    match m.CreateRowMap record with
    | Except.error p => Except.error p
    | Except.ok row => MapReader.rangeRecords m rest (results ++ [row])

/-- The method `ReadAll`: the returned `(maps, error)` pair and the reader after
the call, or a panic. -/
def MapReader.ReadAll (m : MapReader) :
    Except GoPanic ((Option (List (GoMap String)) × Option GoError) × MapReader) :=
  match m.Reader.ReadAll with
  | ((_, some err), reader) => Except.ok ((none, some err), { m with Reader := reader })
  | ((records, none), reader) =>
    match MapReader.rangeRecords m records [] with
    | Except.error p => Except.error p
    | Except.ok results => Except.ok ((some results, none), { m with Reader := reader })

/-- The function `NewReader`: the returned `(*MapReader, error)` pair. -/
def NewReader (file : File) : Option MapReader × Option GoError :=
  let reader := csvNewReader file
  let output : MapReader := MapReader.zero
  match reader.Read with
  | ((_, some err), _) => (none, some err)
  | ((inputHeaders, none), reader) =>
    (some { Headers := inputHeaders
            Reader := reader
            HeaderIndexMap := output.CreateHeaderIndexMap inputHeaders }, none)

/-! ## Sequences of calls -/

/-- A call of one of the four methods of `MapReader`. -/
inductive Call where
  | Read
  | ReadAll
  | CreateRowMap (csvRow : List String)
  | CreateHeaderIndexMap (headers : List String)
deriving DecidableEq, Repr

/-- The MapReader once a call is over.  `CreateRowMap` and `CreateHeaderIndexMap`
assign to no field of their receiver.  `Read` and `ReadAll` leave the MapReader that
the embedding returns; when they panic, the panic is raised inside `CreateRowMap`,
after the underlying reader has been read. -/
def MapReader.afterCall (m : MapReader) : Call → MapReader
  | Call.Read =>
    match m.Read with
    | Except.ok (_, after) => after
    | Except.error _ => { m with Reader := m.Reader.Read.2 }
  | Call.ReadAll =>
    match m.ReadAll with
    | Except.ok (_, after) => after
    | Except.error _ => { m with Reader := m.Reader.ReadAll.2 }
  | Call.CreateRowMap _ => m
  | Call.CreateHeaderIndexMap _ => m

/-- The MapReader after a sequence of calls, made in order. -/
def MapReader.afterCalls (m : MapReader) (calls : List Call) : MapReader :=
  calls.foldl MapReader.afterCall m

/-- The reading loop of the spec ("loop readOne until end-of-source"): call `Read`
and collect its maps until it reports `io.EOF`, which ends the loop with the maps
collected and a `nil` error; any other error ends it with no maps and that error.
The first argument bounds the number of calls; `none` means the bound was reached. -/
def MapReader.readLoop :
    Nat → MapReader → List (GoMap String) →
      Option (Except GoPanic ((Option (List (GoMap String)) × Option GoError) × MapReader))
  | 0, _, _ => none
  | fuel + 1, m, results =>
    match m.Read with
    | Except.error p => some (Except.error p)
    | Except.ok ((_, some GoError.EOF), after) =>
      some (Except.ok ((some results, none), after))
    | Except.ok ((_, some (GoError.other msg)), after) =>
      some (Except.ok ((none, some (GoError.other msg)), after))
    | Except.ok ((row, none), after) =>
      MapReader.readLoop fuel after (results ++ [row.getD GoMap.empty])

/-- Calling `Read` until it signals end-of-source, from the state `m`: one call for
each outcome the reader still holds, and one more for the `io.EOF`. -/
def MapReader.readUntilEOF (m : MapReader) :
    Option (Except GoPanic ((Option (List (GoMap String)) × Option GoError) × MapReader)) :=
  MapReader.readLoop (m.Reader.pending.length + 1) m []

/-! ## Lookup and assignment -/

theorem lookupEntries_setEntries {V : Type} (es : List (String × V)) (key : String) (val : V)
    (k : String) :
    lookupEntries (setEntries es key val) k = if key = k then some val else lookupEntries es k := by
  induction es with
  | nil => simp [setEntries, lookupEntries]
  | cons e rest ih =>
    obtain ⟨k0, v0⟩ := e
    by_cases h0 : k0 = key
    · subst h0
      by_cases h1 : k0 = k
      · simp [setEntries, lookupEntries, h1]
      · simp [setEntries, lookupEntries, h1]
    · by_cases h1 : k0 = k
      · subst h1
        simp [setEntries, lookupEntries, h0, Ne.symm h0]
      · simp [setEntries, lookupEntries, h0, h1, ih]

theorem GoMap.get?_set {V : Type} (m : GoMap V) (key : String) (val : V) (k : String) :
    (m.set key val).get? k = if key = k then some val else m.get? k := by
  simp [GoMap.get?, GoMap.set, lookupEntries_setEntries]

theorem GoMap.get?_empty {V : Type} (k : String) : (GoMap.empty : GoMap V).get? k = none := rfl

theorem keys_setEntries {V : Type} (es : List (String × V)) (key : String) (val : V) :
    (setEntries es key val).map Prod.fst =
      if key ∈ es.map Prod.fst then es.map Prod.fst else es.map Prod.fst ++ [key] := by
  induction es with
  | nil => simp [setEntries]
  | cons e rest ih =>
    obtain ⟨k0, v0⟩ := e
    by_cases h0 : k0 = key
    · subst h0
      simp [setEntries]
    · have h1 : ¬ key = k0 := fun h => h0 h.symm
      by_cases h2 : key ∈ rest.map Prod.fst
      · simp [setEntries, h0, h1, ih, h2]
      · simp [setEntries, h0, h1, ih, h2]

theorem GoMap.WF_set {V : Type} (m : GoMap V) (key : String) (val : V) (h : m.WF) :
    (m.set key val).WF := by
  unfold GoMap.WF GoMap.keys GoMap.set at *
  simp only [keys_setEntries]
  split
  · exact h
  · rename_i hk
    exact List.Nodup.append h (List.nodup_singleton key) (by simpa using hk)

theorem GoMap.WF_empty {V : Type} : (GoMap.empty : GoMap V).WF := by
  simp [GoMap.WF, GoMap.keys, GoMap.empty]

theorem lookupEntries_eq_none {V : Type} (es : List (String × V)) (k : String) :
    lookupEntries es k = none ↔ k ∉ es.map Prod.fst := by
  induction es with
  | nil => simp [lookupEntries]
  | cons e rest ih =>
    obtain ⟨k0, v0⟩ := e
    by_cases h0 : k0 = k
    · simp [lookupEntries, h0]
    · have h1 : ¬ k = k0 := fun h => h0 h.symm
      simp [lookupEntries, h0, h1, ih]

theorem lookupEntries_eq_some {V : Type} (es : List (String × V))
    (hnd : (es.map Prod.fst).Nodup) (k : String) (v : V) :
    lookupEntries es k = some v ↔ (k, v) ∈ es := by
  induction es with
  | nil => simp [lookupEntries]
  | cons e rest ih =>
    obtain ⟨k0, v0⟩ := e
    simp only [List.map_cons, List.nodup_cons] at hnd
    by_cases h0 : k0 = k
    · subst h0
      have hno : ∀ w, (k0, w) ∉ rest := fun w hw =>
        hnd.1 (List.mem_map.2 ⟨(k0, w), hw, rfl⟩)
      simp [lookupEntries, hno, eq_comm]
    · have h1 : ¬ k = k0 := fun h => h0 h.symm
      simp [lookupEntries, h0, h1, ih hnd.2]

theorem GoMap.get?_isSome_iff {V : Type} (m : GoMap V) (k : String) :
    (m.get? k).isSome ↔ k ∈ m.keys := by
  have h := lookupEntries_eq_none m.entries k
  unfold GoMap.get? GoMap.keys
  cases hl : lookupEntries m.entries k with
  | none => simpa using h.1 hl
  | some v =>
    have : ¬ (k ∉ m.entries.map Prod.fst) := fun hn => by
      rw [h.2 hn] at hl
      cases hl
    simpa using this

/-! ## The header index map -/

theorem MapReader.rangeHeaders_get?_of_not_mem (headers : List String) (index : Nat)
    (acc : GoMap Nat) (h : String) (hh : h ∉ headers) :
    (MapReader.rangeHeaders headers index acc).get? h = acc.get? h := by
  induction headers generalizing index acc with
  | nil => rfl
  | cons x t ih =>
    simp only [List.mem_cons, not_or] at hh
    have hx : ¬ x = h := fun e => hh.1 e.symm
    rw [MapReader.rangeHeaders, ih (index + 1) _ hh.2, GoMap.get?_set, if_neg hx]

theorem MapReader.rangeHeaders_get?_last (headers : List String) (index : Nat)
    (acc : GoMap Nat) (h : String) (j : Nat) (hj : headers[j]? = some h)
    (hlast : ∀ j2, j < j2 → headers[j2]? ≠ some h) :
    (MapReader.rangeHeaders headers index acc).get? h = some (index + j) := by
  induction headers generalizing index acc j with
  | nil => simp at hj
  | cons x t ih =>
    cases j with
    | zero =>
      have hx : x = h := by simpa using hj
      have hnot : h ∉ t := by
        intro hmem
        obtain ⟨n, hn⟩ := List.mem_iff_getElem?.1 hmem
        exact hlast (n + 1) (Nat.succ_pos n) (by simpa using hn)
      rw [MapReader.rangeHeaders, MapReader.rangeHeaders_get?_of_not_mem _ _ _ _ hnot,
        GoMap.get?_set, if_pos hx]
      rfl
    | succ j =>
      have hj2 : t[j]? = some h := by simpa using hj
      have hlast2 : ∀ j2, j < j2 → t[j2]? ≠ some h := by
        intro j2 hlt
        have := hlast (j2 + 1) (Nat.succ_lt_succ hlt)
        simpa using this
      rw [MapReader.rangeHeaders, ih (index + 1) _ j hj2 hlast2]
      congr 1
      omega

theorem MapReader.rangeHeaders_WF (headers : List String) (index : Nat) (acc : GoMap Nat)
    (hacc : acc.WF) : (MapReader.rangeHeaders headers index acc).WF := by
  induction headers generalizing index acc with
  | nil => exact hacc
  | cons x t ih => exact ih (index + 1) _ (GoMap.WF_set acc x index hacc)

theorem MapReader.CreateHeaderIndexMap_WF (m : MapReader) (headers : List String) :
    (m.CreateHeaderIndexMap headers).WF :=
  MapReader.rangeHeaders_WF headers 0 GoMap.empty GoMap.WF_empty

theorem MapReader.CreateHeaderIndexMap_get?_last (m : MapReader) (headers : List String)
    (h : String) (j : Nat) (hj : headers[j]? = some h)
    (hlast : ∀ j2, j < j2 → headers[j2]? ≠ some h) :
    (m.CreateHeaderIndexMap headers).get? h = some j := by
  have := MapReader.rangeHeaders_get?_last headers 0 GoMap.empty h j hj hlast
  simpa [MapReader.CreateHeaderIndexMap] using this

theorem MapReader.CreateHeaderIndexMap_get?_of_not_mem (m : MapReader) (headers : List String)
    (h : String) (hh : h ∉ headers) : (m.CreateHeaderIndexMap headers).get? h = none :=
  MapReader.rangeHeaders_get?_of_not_mem headers 0 GoMap.empty h hh

/-- Every name of a list has a last position. -/
theorem exists_last_position (headers : List String) (h : String) (hh : h ∈ headers) :
    ∃ j : Nat, headers[j]? = some h ∧ ∀ j2 : Nat, j < j2 → headers[j2]? ≠ some h := by
  induction headers with
  | nil => simp at hh
  | cons x t ih =>
    by_cases ht : h ∈ t
    · obtain ⟨j, hj, hlast⟩ := ih ht
      refine ⟨j + 1, by simpa using hj, ?_⟩
      intro j2 hlt
      cases j2 with
      | zero => omega
      | succ j2 => simpa using hlast j2 (by omega)
    · have hx : h = x := by
        rcases List.mem_cons.1 hh with e | e
        · exact e
        · exact absurd e ht
      refine ⟨0, by simp [hx], ?_⟩
      intro j2 hlt
      cases j2 with
      | zero => omega
      | succ j2 =>
        intro hc
        exact ht (List.mem_iff_getElem?.2 ⟨j2, by simpa using hc⟩)

/-- With pairwise distinct names no position is followed by a repetition. -/
theorem nodup_no_later (headers : List String) (hnd : headers.Nodup) (k : Nat)
    (hk : k < headers.length) : ∀ j2, k < j2 → headers[j2]? ≠ some headers[k] := by
  intro j2 hlt hc
  obtain ⟨hj2, e⟩ := List.getElem?_eq_some.1 hc
  have := (hnd.getElem_inj_iff).1 e
  omega

/-! ## Translating one record -/

theorem MapReader.rangeIndexMap_ok (csvRow : List String) (es : List (String × Nat))
    (result : GoMap String) (hnd : (es.map Prod.fst).Nodup)
    (hrange : ∀ e ∈ es, e.2 < csvRow.length) :
    ∃ r, MapReader.rangeIndexMap csvRow es result = Except.ok r ∧
      ∀ k, r.get? k = match lookupEntries es k with
        | some i => csvRow[i]?
        | none => result.get? k := by
  induction es generalizing result with
  | nil => exact ⟨result, rfl, fun k => rfl⟩
  | cons e rest ih =>
    obtain ⟨k0, i0⟩ := e
    simp only [List.map_cons, List.nodup_cons] at hnd
    have hi0 : i0 < csvRow.length := hrange (k0, i0) (List.mem_cons_self _ _)
    obtain ⟨r, hr, hget⟩ := ih (result.set k0 csvRow[i0]) hnd.2
      (fun e he => hrange e (List.mem_cons_of_mem _ he))
    refine ⟨r, ?_, ?_⟩
    · simp only [MapReader.rangeIndexMap, List.getElem?_eq_getElem hi0]
      exact hr
    · intro k
      rw [hget k]
      by_cases hk : k0 = k
      · subst hk
        have hnone : lookupEntries rest k0 = none :=
          (lookupEntries_eq_none rest k0).2 hnd.1
        simp [lookupEntries, hnone, GoMap.get?_set, List.getElem?_eq_getElem hi0]
      · simp [lookupEntries, hk, GoMap.get?_set]

theorem MapReader.rangeIndexMap_panic (csvRow : List String) (es : List (String × Nat))
    (result : GoMap String) (hbad : ∃ e ∈ es, csvRow.length ≤ e.2) :
    MapReader.rangeIndexMap csvRow es result = Except.error GoPanic.indexOutOfRange := by
  induction es generalizing result with
  | nil => simp at hbad
  | cons e rest ih =>
    obtain ⟨k0, i0⟩ := e
    by_cases hi0 : i0 < csvRow.length
    · simp only [MapReader.rangeIndexMap, List.getElem?_eq_getElem hi0]
      apply ih
      obtain ⟨e, he, hle⟩ := hbad
      rcases List.mem_cons.1 he with h | h
      · subst h
        exact absurd hi0 (Nat.not_lt.2 hle)
      · exact ⟨e, h, hle⟩
    · simp only [MapReader.rangeIndexMap, List.getElem?_eq_none (Nat.le_of_not_lt hi0)]

/-- Positions held by the header index map are positions of the header sequence. -/
theorem MapReader.CreateHeaderIndexMap_get?_lt (m : MapReader) (headers : List String)
    (h : String) (i : Nat) (hi : (m.CreateHeaderIndexMap headers).get? h = some i) :
    i < headers.length ∧ headers[i]? = some h := by
  by_cases hh : h ∈ headers
  · obtain ⟨j, hj, hlast⟩ := exists_last_position headers h hh
    rw [MapReader.CreateHeaderIndexMap_get?_last m headers h j hj hlast] at hi
    have e : j = i := Option.some.inj hi
    subst e
    exact ⟨(List.getElem?_eq_some.1 hj).1, hj⟩
  · rw [MapReader.CreateHeaderIndexMap_get?_of_not_mem m headers h hh] at hi
    cases hi

theorem MapReader.CreateHeaderIndexMap_entry_lt (m : MapReader) (headers : List String)
    (e : String × Nat) (he : e ∈ (m.CreateHeaderIndexMap headers).entries) :
    e.2 < headers.length := by
  obtain ⟨k, i⟩ := e
  have hget : (m.CreateHeaderIndexMap headers).get? k = some i :=
    (lookupEntries_eq_some _ (MapReader.CreateHeaderIndexMap_WF m headers) k i).2 he
  exact (MapReader.CreateHeaderIndexMap_get?_lt m headers k i hget).1

/-- With the index map of `headers` in place and a record at least as long as
`headers`, `CreateRowMap` returns a map; a name is looked up through its position in
the index map. -/
theorem MapReader.CreateRowMap_ok (m : MapReader) (headers csvRow : List String)
    (hm : m.HeaderIndexMap = m.CreateHeaderIndexMap headers)
    (hlen : headers.length ≤ csvRow.length) :
    ∃ r, m.CreateRowMap csvRow = Except.ok r ∧
      ∀ k, r.get? k = match m.HeaderIndexMap.get? k with
        | some i => csvRow[i]?
        | none => none := by
  have hnd : (m.HeaderIndexMap.entries.map Prod.fst).Nodup := by
    rw [hm]
    exact MapReader.CreateHeaderIndexMap_WF m headers
  have hrange : ∀ e ∈ m.HeaderIndexMap.entries, e.2 < csvRow.length := by
    intro e he
    rw [hm] at he
    exact Nat.lt_of_lt_of_le (MapReader.CreateHeaderIndexMap_entry_lt m headers e he) hlen
  obtain ⟨r, hr, hget⟩ :=
    MapReader.rangeIndexMap_ok csvRow m.HeaderIndexMap.entries GoMap.empty hnd hrange
  exact ⟨r, hr, hget⟩

/-- With the index map of `headers` in place and a record at least as long as
`headers`, the map returned by `CreateRowMap` sends the name whose last position is
`k` to the field at `k`. -/
theorem MapReader.CreateRowMap_get?_last (m : MapReader) (headers csvRow : List String)
    (hm : m.HeaderIndexMap = m.CreateHeaderIndexMap headers)
    (r : GoMap String)
    (hget : ∀ k, r.get? k = match m.HeaderIndexMap.get? k with
        | some i => csvRow[i]?
        | none => none)
    (h : String) (k : Nat) (hk : headers[k]? = some h)
    (hlast : ∀ j2, k < j2 → headers[j2]? ≠ some h) :
    r.get? h = csvRow[k]? := by
  rw [hget h, hm, MapReader.CreateHeaderIndexMap_get?_last m headers h k hk hlast]

theorem MapReader.rangeIndexMap_isOk (csvRow : List String) (es : List (String × Nat))
    (result : GoMap String) (hrange : ∀ e ∈ es, e.2 < csvRow.length) :
    ∃ r, MapReader.rangeIndexMap csvRow es result = Except.ok r := by
  induction es generalizing result with
  | nil => exact ⟨result, rfl⟩
  | cons e rest ih =>
    obtain ⟨k0, i0⟩ := e
    have hi0 : i0 < csvRow.length := hrange (k0, i0) (List.mem_cons_self _ _)
    obtain ⟨r, hr⟩ := ih (result.set k0 csvRow[i0])
      (fun e he => hrange e (List.mem_cons_of_mem _ he))
    refine ⟨r, ?_⟩
    simp only [MapReader.rangeIndexMap, List.getElem?_eq_getElem hi0]
    exact hr

theorem MapReader.rangeIndexMap_WF (csvRow : List String) (es : List (String × Nat))
    (result r : GoMap String) (hwf : result.WF)
    (hr : MapReader.rangeIndexMap csvRow es result = Except.ok r) : r.WF := by
  induction es generalizing result with
  | nil =>
    have e : result = r := Except.ok.inj hr
    exact e ▸ hwf
  | cons e rest ih =>
    obtain ⟨k0, i0⟩ := e
    unfold MapReader.rangeIndexMap at hr
    cases hrow : csvRow[i0]? with
    | none =>
      rw [hrow] at hr
      cases hr
    | some field =>
      rw [hrow] at hr
      exact ih (result.set k0 field) (GoMap.WF_set result k0 field hwf) hr

theorem MapReader.CreateRowMap_isOk (m : MapReader) (csvRow : List String)
    (hrange : ∀ e ∈ m.HeaderIndexMap.entries, e.2 < csvRow.length) :
    ∃ r, m.CreateRowMap csvRow = Except.ok r :=
  MapReader.rangeIndexMap_isOk csvRow m.HeaderIndexMap.entries GoMap.empty hrange

theorem MapReader.CreateRowMap_panic (m : MapReader) (csvRow : List String)
    (hbad : ∃ e ∈ m.HeaderIndexMap.entries, csvRow.length ≤ e.2) :
    m.CreateRowMap csvRow = Except.error GoPanic.indexOutOfRange :=
  MapReader.rangeIndexMap_panic csvRow m.HeaderIndexMap.entries GoMap.empty hbad

theorem MapReader.CreateRowMap_WF (m : MapReader) (csvRow : List String) (r : GoMap String)
    (hr : m.CreateRowMap csvRow = Except.ok r) : r.WF :=
  MapReader.rangeIndexMap_WF csvRow m.HeaderIndexMap.entries GoMap.empty r GoMap.WF_empty hr

/-- Go leaves the order in which `range` visits a map unspecified.  The outcome of
the loop of `CreateRowMap` does not depend on it: over two orderings of the same
entries the loop panics in both, or returns maps with the same lookups in both. -/
theorem MapReader.rangeIndexMap_order (csvRow : List String) (es1 es2 : List (String × Nat))
    (result : GoMap String) (hperm : es1.Perm es2) (hnd : (es1.map Prod.fst).Nodup) :
    (MapReader.rangeIndexMap csvRow es1 result = Except.error GoPanic.indexOutOfRange ∧
      MapReader.rangeIndexMap csvRow es2 result = Except.error GoPanic.indexOutOfRange) ∨
    ∃ r1 r2, MapReader.rangeIndexMap csvRow es1 result = Except.ok r1 ∧
      MapReader.rangeIndexMap csvRow es2 result = Except.ok r2 ∧
      ∀ k, r1.get? k = r2.get? k := by
  have hnd2 : (es2.map Prod.fst).Nodup := (hperm.map Prod.fst).nodup_iff.1 hnd
  by_cases hbad : ∃ e ∈ es1, csvRow.length ≤ e.2
  · left
    refine ⟨MapReader.rangeIndexMap_panic csvRow es1 result hbad, ?_⟩
    obtain ⟨e, he, hle⟩ := hbad
    exact MapReader.rangeIndexMap_panic csvRow es2 result ⟨e, hperm.mem_iff.1 he, hle⟩
  · right
    have hr1 : ∀ e ∈ es1, e.2 < csvRow.length := fun e he =>
      Nat.lt_of_not_le (fun hle => hbad ⟨e, he, hle⟩)
    have hr2 : ∀ e ∈ es2, e.2 < csvRow.length := fun e he => hr1 e (hperm.mem_iff.2 he)
    obtain ⟨r1, h1, g1⟩ := MapReader.rangeIndexMap_ok csvRow es1 result hnd hr1
    obtain ⟨r2, h2, g2⟩ := MapReader.rangeIndexMap_ok csvRow es2 result hnd2 hr2
    refine ⟨r1, r2, h1, h2, ?_⟩
    intro k
    have hlook : lookupEntries es1 k = lookupEntries es2 k := by
      apply Option.ext
      intro v
      simp only [Option.mem_def]
      rw [lookupEntries_eq_some es1 hnd k v, lookupEntries_eq_some es2 hnd2 k v]
      exact hperm.mem_iff
    rw [g1 k, g2 k, hlook]

/-- With the index map of `headers` in place and a record at least as long as
`headers`, the keys of the map returned by `CreateRowMap` are the names of `headers`. -/
theorem MapReader.CreateRowMap_keys (m : MapReader) (headers csvRow : List String)
    (hm : m.HeaderIndexMap = m.CreateHeaderIndexMap headers)
    (hlen : headers.length ≤ csvRow.length) (r : GoMap String)
    (hget : ∀ k, r.get? k = match m.HeaderIndexMap.get? k with
        | some i => csvRow[i]?
        | none => none)
    (k : String) : k ∈ r.keys ↔ k ∈ headers := by
  rw [← GoMap.get?_isSome_iff, hget k, hm]
  by_cases hk : k ∈ headers
  · obtain ⟨j, hj, hlast⟩ := exists_last_position headers k hk
    have hjlt : j < csvRow.length :=
      Nat.lt_of_lt_of_le (List.getElem?_eq_some.1 hj).1 hlen
    rw [MapReader.CreateHeaderIndexMap_get?_last m headers k j hj hlast]
    simp [List.getElem?_eq_getElem hjlt, hk]
  · rw [MapReader.CreateHeaderIndexMap_get?_of_not_mem m headers k hk]
    simp [hk]

/-- The last position of a non-empty header sequence is always held by the index
map. -/
theorem MapReader.CreateHeaderIndexMap_last_entry (m : MapReader) (headers : List String)
    (hne : 0 < headers.length) :
    ∃ e ∈ (m.CreateHeaderIndexMap headers).entries, e.2 = headers.length - 1 := by
  have hk : headers.length - 1 < headers.length := by omega
  have hlast : ∀ j2 : Nat, headers.length - 1 < j2 →
      headers[j2]? ≠ some headers[headers.length - 1] := by
    intro j2 hlt
    rw [List.getElem?_eq_none (by omega)]
    simp
  have hget := MapReader.CreateHeaderIndexMap_get?_last m headers _ _
    (List.getElem?_eq_getElem hk) hlast
  exact ⟨(headers[headers.length - 1], headers.length - 1),
    (lookupEntries_eq_some _ (MapReader.CreateHeaderIndexMap_WF m headers) _ _).1 hget, rfl⟩

/-- A record shorter than the header sequence makes `CreateRowMap` panic. -/
theorem MapReader.CreateRowMap_short (m : MapReader) (headers csvRow : List String)
    (hm : m.HeaderIndexMap = m.CreateHeaderIndexMap headers)
    (hshort : csvRow.length < headers.length) :
    m.CreateRowMap csvRow = Except.error GoPanic.indexOutOfRange := by
  obtain ⟨e, he, hlast⟩ := MapReader.CreateHeaderIndexMap_last_entry m headers (by omega)
  apply MapReader.CreateRowMap_panic
  rw [hm]
  exact ⟨e, he, by omega⟩

/-! ## Reading -/

theorem MapReader.rangeRecords_ok (m : MapReader) (records : List (List String))
    (acc : List (GoMap String))
    (hok : ∀ r ∈ records, ∃ mp, m.CreateRowMap r = Except.ok mp) :
    ∃ maps, MapReader.rangeRecords m records acc = Except.ok (acc ++ maps) ∧
      List.Forall₂ (fun r mp => m.CreateRowMap r = Except.ok mp) records maps := by
  induction records generalizing acc with
  | nil => exact ⟨[], by simp [MapReader.rangeRecords], List.Forall₂.nil⟩
  | cons r t ih =>
    obtain ⟨mp, hmp⟩ := hok r (List.mem_cons_self _ _)
    obtain ⟨maps, hmaps, hall⟩ := ih (acc ++ [mp]) (fun r2 h2 => hok r2 (List.mem_cons_of_mem _ h2))
    refine ⟨mp :: maps, ?_, List.Forall₂.cons hmp hall⟩
    simp only [MapReader.rangeRecords, hmp]
    rw [hmaps]
    simp

theorem MapReader.rangeRecords_panic (m : MapReader) (records : List (List String))
    (acc : List (GoMap String))
    (hbad : ∃ r ∈ records, m.CreateRowMap r = Except.error GoPanic.indexOutOfRange) :
    MapReader.rangeRecords m records acc = Except.error GoPanic.indexOutOfRange := by
  induction records generalizing acc with
  | nil => simp at hbad
  | cons r t ih =>
    cases hr : m.CreateRowMap r with
    | error p =>
      cases p
      simp only [MapReader.rangeRecords, hr]
    | ok mp =>
      simp only [MapReader.rangeRecords, hr]
      apply ih
      obtain ⟨r2, h2, e2⟩ := hbad
      rcases List.mem_cons.1 h2 with h | h
      · subst h
        rw [hr] at e2
        cases e2
      · exact ⟨r2, h, e2⟩

theorem CsvReader.readAllLoop_records (rows acc : List (List String)) :
    CsvReader.readAllLoop (rows.map ReadOutcome.record) acc = ((acc ++ rows, none), ⟨[]⟩) := by
  induction rows generalizing acc with
  | nil => simp [CsvReader.readAllLoop]
  | cons r t ih =>
    simp only [List.map_cons, CsvReader.readAllLoop, ih]
    simp

/-! ## Well-formedness of the maps -/

theorem MapReader.CreateHeaderIndexMap_mem_keys (m : MapReader) (headers : List String)
    (k : String) : k ∈ (m.CreateHeaderIndexMap headers).keys ↔ k ∈ headers := by
  rw [← GoMap.get?_isSome_iff]
  by_cases hk : k ∈ headers
  · obtain ⟨j, hj, hlast⟩ := exists_last_position headers k hk
    rw [MapReader.CreateHeaderIndexMap_get?_last m headers k j hj hlast]
    simp [hk]
  · rw [MapReader.CreateHeaderIndexMap_get?_of_not_mem m headers k hk]
    simp [hk]

/-- A map without repeated keys whose keys are the names of `headers` has one entry
for each distinct name. -/
theorem GoMap.keys_perm_dedup {V : Type} (mp : GoMap V) (headers : List String)
    (hwf : mp.WF) (hkeys : ∀ k, k ∈ mp.keys ↔ k ∈ headers) :
    mp.keys.Perm headers.dedup ∧ mp.len = headers.dedup.length := by
  have hperm : mp.keys.Perm headers.dedup :=
    (List.perm_ext_iff_of_nodup hwf (List.nodup_dedup headers)).2
      (fun k => by rw [hkeys k, List.mem_dedup])
  refine ⟨hperm, ?_⟩
  have := hperm.length_eq
  simpa [GoMap.keys, GoMap.len] using this

theorem MapReader.rangeIndexMap_congr (row1 row2 : List String) (es : List (String × Nat))
    (result : GoMap String) (hsame : ∀ e ∈ es, row1[e.2]? = row2[e.2]?) :
    MapReader.rangeIndexMap row1 es result = MapReader.rangeIndexMap row2 es result := by
  induction es generalizing result with
  | nil => rfl
  | cons e rest ih =>
    obtain ⟨k0, i0⟩ := e
    have h0 : row1[i0]? = row2[i0]? := hsame (k0, i0) (List.mem_cons_self _ _)
    have hrest : ∀ e ∈ rest, row1[e.2]? = row2[e.2]? :=
      fun e he => hsame e (List.mem_cons_of_mem _ he)
    simp only [MapReader.rangeIndexMap, h0]
    cases row2[i0]? with
    | none => rfl
    | some field => exact ih (result.set k0 field) hrest

/-- With the index map of `headers` in place, `CreateRowMap` panics exactly on the
records shorter than `headers`. -/
theorem MapReader.CreateRowMap_panic_iff (m : MapReader) (headers csvRow : List String)
    (hm : m.HeaderIndexMap = m.CreateHeaderIndexMap headers) :
    m.CreateRowMap csvRow = Except.error GoPanic.indexOutOfRange ↔
      csvRow.length < headers.length := by
  constructor
  · intro hp
    by_contra hlt
    obtain ⟨r, hr, _⟩ := MapReader.CreateRowMap_ok m headers csvRow hm (Nat.le_of_not_lt hlt)
    rw [hr] at hp
    cases hp
  · exact MapReader.CreateRowMap_short m headers csvRow hm

/-! ## What a call leaves unchanged -/

theorem CsvReader.Read_suffix (r : CsvReader) : r.Read.2.pending <:+ r.pending := by
  rcases r with ⟨pending⟩
  cases pending with
  | nil => exact List.suffix_refl _
  | cons o rest =>
    cases o with
    | record fields => exact List.suffix_cons _ _
    | failure fields msg => exact List.suffix_cons _ _

theorem CsvReader.readAllLoop_suffix (pending : List ReadOutcome) (acc : List (List String)) :
    (CsvReader.readAllLoop pending acc).2.pending <:+ pending := by
  induction pending generalizing acc with
  | nil => exact List.suffix_refl _
  | cons o rest ih =>
    cases o with
    | record fields =>
      exact (ih (acc ++ [fields])).trans (List.suffix_cons _ _)
    | failure fields msg => exact List.suffix_cons _ _

theorem CsvReader.ReadAll_suffix (r : CsvReader) : r.ReadAll.2.pending <:+ r.pending :=
  CsvReader.readAllLoop_suffix r.pending []

theorem MapReader.Read_state (m : MapReader)
    (res : Option (GoMap String) × Option GoError) (after : MapReader)
    (h : m.Read = Except.ok (res, after)) : after = { m with Reader := m.Reader.Read.2 } := by
  unfold MapReader.Read at h
  rcases hread : m.Reader.Read with ⟨⟨csvRow, e⟩, reader⟩
  rw [hread] at h
  cases e with
  | some err =>
    simp only [Except.ok.injEq, Prod.mk.injEq] at h
    exact h.2.symm
  | none =>
    simp only at h
    cases hrow : m.CreateRowMap csvRow with
    | error p =>
      rw [hrow] at h
      cases h
    | ok row =>
      rw [hrow] at h
      simp only [Except.ok.injEq, Prod.mk.injEq] at h
      exact h.2.symm

theorem MapReader.ReadAll_state (m : MapReader)
    (res : Option (List (GoMap String)) × Option GoError) (after : MapReader)
    (h : m.ReadAll = Except.ok (res, after)) :
    after = { m with Reader := m.Reader.ReadAll.2 } := by
  unfold MapReader.ReadAll at h
  rcases hread : m.Reader.ReadAll with ⟨⟨records, e⟩, reader⟩
  rw [hread] at h
  cases e with
  | some err =>
    simp only [Except.ok.injEq, Prod.mk.injEq] at h
    exact h.2.symm
  | none =>
    simp only at h
    cases hrows : MapReader.rangeRecords m records [] with
    | error p =>
      rw [hrows] at h
      cases h
    | ok results =>
      rw [hrows] at h
      simp only [Except.ok.injEq, Prod.mk.injEq] at h
      exact h.2.symm

theorem MapReader.afterCall_eq (m : MapReader) (c : Call) :
    ∃ reader : CsvReader, m.afterCall c = { m with Reader := reader } ∧
      reader.pending <:+ m.Reader.pending := by
  cases c with
  | Read =>
    refine ⟨m.Reader.Read.2, ?_, CsvReader.Read_suffix m.Reader⟩
    unfold MapReader.afterCall
    cases h : m.Read with
    | error p => rfl
    | ok v =>
      obtain ⟨res, after⟩ := v
      exact MapReader.Read_state m res after h
  | ReadAll =>
    refine ⟨m.Reader.ReadAll.2, ?_, CsvReader.ReadAll_suffix m.Reader⟩
    unfold MapReader.afterCall
    cases h : m.ReadAll with
    | error p => rfl
    | ok v =>
      obtain ⟨res, after⟩ := v
      exact MapReader.ReadAll_state m res after h
  | CreateRowMap csvRow => exact ⟨m.Reader, rfl, List.suffix_refl _⟩
  | CreateHeaderIndexMap headers => exact ⟨m.Reader, rfl, List.suffix_refl _⟩

theorem MapReader.afterCalls_eq (m : MapReader) (calls : List Call) :
    ∃ reader : CsvReader, m.afterCalls calls = { m with Reader := reader } ∧
      reader.pending <:+ m.Reader.pending := by
  induction calls generalizing m with
  | nil => exact ⟨m.Reader, rfl, List.suffix_refl _⟩
  | cons c rest ih =>
    obtain ⟨r1, h1, s1⟩ := MapReader.afterCall_eq m c
    obtain ⟨r2, h2, s2⟩ := ih (m.afterCall c)
    refine ⟨r2, ?_, ?_⟩
    · have : m.afterCalls (c :: rest) = (m.afterCall c).afterCalls rest := rfl
      rw [this, h2, h1]
    · rw [h1] at s2
      exact s2.trans s1

theorem NewReader_invariant (file : File) (m0 : MapReader)
    (hnew : NewReader file = (some m0, none)) :
    m0.HeaderIndexMap = m0.CreateHeaderIndexMap m0.Headers := by
  rcases hread : (csvNewReader file).Read with ⟨⟨fields, e⟩, reader⟩
  cases e with
  | some err =>
    simp only [NewReader, hread, Prod.mk.injEq] at hnew
    cases hnew.1
  | none =>
    simp only [NewReader, hread, Prod.mk.injEq, Option.some.injEq, and_true] at hnew
    subst hnew
    rfl

/-! ## Reading record by record -/

theorem MapReader.rangeRecords_congr (m1 m2 : MapReader)
    (h : m1.HeaderIndexMap = m2.HeaderIndexMap) (records : List (List String))
    (acc : List (GoMap String)) :
    MapReader.rangeRecords m1 records acc = MapReader.rangeRecords m2 records acc := by
  have hrow : ∀ r, m1.CreateRowMap r = m2.CreateRowMap r := by
    intro r
    unfold MapReader.CreateRowMap
    rw [h]
  induction records generalizing acc with
  | nil => rfl
  | cons r t ih =>
    simp only [MapReader.rangeRecords, hrow r]
    cases m2.CreateRowMap r with
    | error p => rfl
    | ok row => exact ih (acc ++ [row])

/-- Over a reader that holds only records, the reading loop ends like the loop of
`ReadAll` over those records. -/
theorem MapReader.readLoop_records (headers : List String) (indexMap : GoMap Nat)
    (rows : List (List String)) (acc : List (GoMap String)) :
    MapReader.readLoop (rows.length + 1)
        ⟨headers, indexMap, ⟨rows.map ReadOutcome.record⟩⟩ acc =
      some (match MapReader.rangeRecords ⟨headers, indexMap, ⟨[]⟩⟩ rows acc with
        | Except.error p => Except.error p
        | Except.ok results =>
          Except.ok ((some results, none), ⟨headers, indexMap, ⟨[]⟩⟩)) := by
  induction rows generalizing acc with
  | nil => rfl
  | cons r t ih =>
    have hrow : MapReader.CreateRowMap ⟨headers, indexMap,
        ⟨(r :: t).map ReadOutcome.record⟩⟩ r =
        MapReader.CreateRowMap ⟨headers, indexMap, ⟨[]⟩⟩ r := rfl
    cases hc : MapReader.CreateRowMap ⟨headers, indexMap, ⟨[]⟩⟩ r with
    | error p =>
      rw [hc] at hrow
      simp only [List.length_cons, MapReader.readLoop, MapReader.Read, CsvReader.Read,
        List.map_cons, MapReader.rangeRecords, hc]
      simp only [List.map_cons] at hrow
      rw [hrow]
    | ok row =>
      rw [hc] at hrow
      simp only [List.map_cons] at hrow
      simp only [List.length_cons, MapReader.readLoop, MapReader.Read, CsvReader.Read,
        List.map_cons, MapReader.rangeRecords, hc]
      rw [hrow]
      exact ih (acc ++ [row])

theorem MapReader.readUntilEOF_records (m : MapReader) (rows : List (List String))
    (hparse : m.Reader.pending = rows.map ReadOutcome.record) :
    m.readUntilEOF = some m.ReadAll := by
  rcases m with ⟨headers, indexMap, ⟨pending⟩⟩
  simp only at hparse
  subst hparse
  have hbulk : (CsvReader.mk (rows.map ReadOutcome.record)).ReadAll = ((rows, none), ⟨[]⟩) := by
    have := CsvReader.readAllLoop_records rows []
    simpa [CsvReader.ReadAll] using this
  have hall : MapReader.ReadAll ⟨headers, indexMap, ⟨rows.map ReadOutcome.record⟩⟩ =
      match MapReader.rangeRecords ⟨headers, indexMap, ⟨[]⟩⟩ rows [] with
        | Except.error p => Except.error p
        | Except.ok results =>
          Except.ok ((some results, none), ⟨headers, indexMap, ⟨[]⟩⟩) := by
    simp only [MapReader.ReadAll, hbulk]
    rw [MapReader.rangeRecords_congr ⟨headers, indexMap, ⟨rows.map ReadOutcome.record⟩⟩
      ⟨headers, indexMap, ⟨[]⟩⟩ rfl rows []]
  rw [hall]
  have := MapReader.readLoop_records headers indexMap rows []
  simpa [MapReader.readUntilEOF] using this

/-! ## Claims -/

/-- C1: for a header sequence with pairwise distinct names, `CreateHeaderIndexMap`
maps each name `H[k]` to its zero-based position `k`. -/
theorem createHeaderIndexMap_distinct_position (m : MapReader) (H : List String)
    (hH : H.Nodup) (k : Nat) (hk : k < H.length) :
    (m.CreateHeaderIndexMap H).get? H[k] = some k :=
  MapReader.CreateHeaderIndexMap_get?_last m H H[k] k (List.getElem?_eq_getElem hk)
    (nodup_no_later H hH k hk)

theorem createHeaderIndexMap_distinct_position_witness :
    ["id", "name", "age"].Nodup ∧
      (MapReader.zero.CreateHeaderIndexMap ["id", "name", "age"]).get? "name"
        = some 1 :=
  ⟨by decide,
    createHeaderIndexMap_distinct_position MapReader.zero ["id", "name", "age"]
      (by decide) 1 (by decide)⟩

/-- C2: for any header sequence (repeated names allowed) and any name `h` in it,
`CreateHeaderIndexMap` maps `h` to the position of its last occurrence: whenever
`h` stands at position `j` and nowhere after `j`, the map sends `h` to `j`, and so
to no earlier position `i < j`; and every name of the sequence has such a `j`. -/
theorem createHeaderIndexMap_last_occurrence (m : MapReader) (H : List String) (h : String)
    (hh : h ∈ H) :
    (∃ j : Nat, H[j]? = some h ∧ (∀ j2 : Nat, j < j2 → H[j2]? ≠ some h) ∧
        (m.CreateHeaderIndexMap H).get? h = some j) ∧
    (∀ i j : Nat, i < j → H[i]? = some h → H[j]? = some h → (∀ j2, j < j2 → H[j2]? ≠ some h) →
        (m.CreateHeaderIndexMap H).get? h = some j ∧
        (m.CreateHeaderIndexMap H).get? h ≠ some i) := by
  constructor
  · obtain ⟨j, hj, hlast⟩ := exists_last_position H h hh
    exact ⟨j, hj, hlast, MapReader.CreateHeaderIndexMap_get?_last m H h j hj hlast⟩
  · intro i j hij _ hj hlast
    have e := MapReader.CreateHeaderIndexMap_get?_last m H h j hj hlast
    refine ⟨e, ?_⟩
    rw [e]
    intro hc
    have : j = i := Option.some.inj hc
    omega

theorem createHeaderIndexMap_last_occurrence_witness :
    "a" ∈ ["a", "b", "a"] ∧
      ((∃ j : Nat, ["a", "b", "a"][j]? = some "a" ∧ (∀ j2 : Nat, j < j2 → ["a", "b", "a"][j2]? ≠ some "a") ∧
          (MapReader.zero.CreateHeaderIndexMap ["a", "b", "a"]).get? "a"
            = some j) ∧
        (∀ i j : Nat, i < j → ["a", "b", "a"][i]? = some "a" → ["a", "b", "a"][j]? = some "a" →
          (∀ j2, j < j2 → ["a", "b", "a"][j2]? ≠ some "a") →
          (MapReader.zero.CreateHeaderIndexMap ["a", "b", "a"]).get? "a"
            = some j ∧
          (MapReader.zero.CreateHeaderIndexMap ["a", "b", "a"]).get? "a"
            ≠ some i)) :=
  ⟨by decide,
    createHeaderIndexMap_last_occurrence MapReader.zero ["a", "b", "a"] "a" (by decide)⟩

/-- C3 as stated fails: with the repeated name of `["a", "a"]` and the record
`["x", "y"]` of the same length, `CreateRowMap` returns a map that sends `H[0] = "a"`
to `"y"`, which is not `R[0] = "x"`. -/
theorem createRowMap_repeated_name_counterexample :
    (MapReader.mk ["a", "a"] (MapReader.zero.CreateHeaderIndexMap ["a", "a"])
        ⟨[]⟩).CreateRowMap ["x", "y"] = Except.ok ⟨[("a", "y")]⟩ ∧
      (⟨[("a", "y")]⟩ : GoMap String).get? (["a", "a"][0]) = some "y" ∧
      ¬ ∃ r, (MapReader.mk ["a", "a"] (MapReader.zero.CreateHeaderIndexMap ["a", "a"])
          ⟨[]⟩).CreateRowMap ["x", "y"] = Except.ok r ∧
        r.get? (["a", "a"][0]) = some (["x", "y"][0]) := by
  refine ⟨by decide, by decide, ?_⟩
  rintro ⟨r, hr, hget⟩
  have e : (MapReader.mk ["a", "a"] (MapReader.zero.CreateHeaderIndexMap ["a", "a"])
      ⟨[]⟩).CreateRowMap ["x", "y"] = Except.ok ⟨[("a", "y")]⟩ := by decide
  rw [e] at hr
  have hr2 : (⟨[("a", "y")]⟩ : GoMap String) = r := Except.ok.inj hr
  subst hr2
  revert hget
  decide

/-- C3, amended: for a header sequence `H`, a record `R` of the same length and
`HeaderIndexMap = CreateHeaderIndexMap(H)`, `CreateRowMap(R)` returns a map that
sends `H[k]` to `R[k]` for every valid position `k` whose name does not occur again
after `k` (every position, when the names are pairwise distinct). -/
theorem createRowMap_aligned_last_occurrence (m : MapReader) (H R : List String)
    (hlen : R.length = H.length) (hm : m.HeaderIndexMap = m.CreateHeaderIndexMap H)
    (k : Nat) (hk : k < H.length) (hkR : k < R.length)
    (hlast : ∀ j2 : Nat, k < j2 → H[j2]? ≠ some H[k]) :
    ∃ r, m.CreateRowMap R = Except.ok r ∧ r.get? H[k] = some R[k] := by
  obtain ⟨r, hr, hget⟩ := MapReader.CreateRowMap_ok m H R hm (Nat.le_of_eq hlen.symm)
  refine ⟨r, hr, ?_⟩
  rw [MapReader.CreateRowMap_get?_last m H R hm r hget H[k] k
    (List.getElem?_eq_getElem hk) hlast, List.getElem?_eq_getElem hkR]

theorem createRowMap_aligned_last_occurrence_witness :
    ∃ r, (MapReader.mk ["a", "a"] (MapReader.zero.CreateHeaderIndexMap ["a", "a"])
        ⟨[]⟩).CreateRowMap ["x", "y"] = Except.ok r ∧ r.get? "a" = some "y" :=
  createRowMap_aligned_last_occurrence
    (MapReader.mk ["a", "a"] (MapReader.zero.CreateHeaderIndexMap ["a", "a"]) ⟨[]⟩)
    ["a", "a"] ["x", "y"] rfl rfl 1 (by decide) (by decide)
    (fun j2 hlt => by
      have hnone : ["a", "a"][j2]? = none :=
        List.getElem?_eq_none (show 2 ≤ j2 from hlt)
      simp [hnone])

/-- C4: round trip. For a header sequence `H` with pairwise distinct names, a
record `R` of the same length and `HeaderIndexMap = CreateHeaderIndexMap(H)`,
`CreateRowMap(R)` returns a map, and looking it up at `H[0], H[1], ...` in that
order gives back exactly the fields of `R`. -/
theorem createRowMap_round_trip (m : MapReader) (H R : List String) (hH : H.Nodup)
    (hlen : R.length = H.length) (hm : m.HeaderIndexMap = m.CreateHeaderIndexMap H) :
    ∃ r, m.CreateRowMap R = Except.ok r ∧ H.map r.get? = R.map some := by
  obtain ⟨r, hr, hget⟩ := MapReader.CreateRowMap_ok m H R hm (Nat.le_of_eq hlen.symm)
  refine ⟨r, hr, ?_⟩
  apply List.ext_getElem
  · simp [hlen]
  · intro k hk1 hk2
    have hk : k < H.length := by simpa using hk1
    have hkR : k < R.length := by simpa using hk2
    rw [List.getElem_map, List.getElem_map,
      MapReader.CreateRowMap_get?_last m H R hm r hget H[k] k
        (List.getElem?_eq_getElem hk) (nodup_no_later H hH k hk),
      List.getElem?_eq_getElem hkR]

theorem createRowMap_round_trip_witness :
    ["id", "name"].Nodup ∧
      ∃ r, (MapReader.mk ["id", "name"] (MapReader.zero.CreateHeaderIndexMap ["id", "name"])
          ⟨[]⟩).CreateRowMap ["1", "Alice"] = Except.ok r ∧
        ["id", "name"].map r.get? = ["1", "Alice"].map some :=
  ⟨by decide,
    createRowMap_round_trip
      (MapReader.mk ["id", "name"] (MapReader.zero.CreateHeaderIndexMap ["id", "name"]) ⟨[]⟩)
      ["id", "name"] ["1", "Alice"] (by decide) rfl rfl⟩

/-- C5 as stated fails: the bulk read of the underlying reader succeeds with the
single record `["x"]`, but with the index map of `["a", "b"]` in place `ReadAll`
returns nothing: it panics on `csvRow[1]`. -/
theorem readAll_short_record_counterexample :
    (MapReader.mk ["a", "b"] (MapReader.zero.CreateHeaderIndexMap ["a", "b"])
        ⟨[ReadOutcome.record ["x"]]⟩).Reader.ReadAll = (([["x"]], none), ⟨[]⟩) ∧
      (MapReader.mk ["a", "b"] (MapReader.zero.CreateHeaderIndexMap ["a", "b"])
        ⟨[ReadOutcome.record ["x"]]⟩).ReadAll = Except.error GoPanic.indexOutOfRange := by
  decide

/-- C5, amended: when the bulk read of the underlying reader succeeds with the
remaining records `r1..rn` and every position held in `HeaderIndexMap` is a valid
index of every `ri`, `ReadAll` returns a `nil` error and the sequence
`[CreateRowMap(r1), ..., CreateRowMap(rn)]`, of the same length and in the same
order; with no record remaining it is the empty sequence. -/
theorem readAll_bulk_success (m : MapReader) (records : List (List String))
    (reader : CsvReader) (hbulk : m.Reader.ReadAll = ((records, none), reader))
    (hfit : ∀ r ∈ records, ∀ e ∈ m.HeaderIndexMap.entries, e.2 < r.length) :
    ∃ maps, m.ReadAll = Except.ok ((some maps, none), { m with Reader := reader }) ∧
      maps.length = records.length ∧
      List.Forall₂ (fun r mp => m.CreateRowMap r = Except.ok mp) records maps ∧
      (records = [] → maps = []) := by
  obtain ⟨maps, hmaps, hall⟩ := MapReader.rangeRecords_ok m records []
    (fun r hr => MapReader.CreateRowMap_isOk m r (hfit r hr))
  refine ⟨maps, ?_, hall.length_eq.symm, hall, ?_⟩
  · simp only [MapReader.ReadAll, hbulk, hmaps, List.nil_append]
  · intro he
    subst he
    cases hall
    rfl

theorem readAll_bulk_success_witness :
    ∃ maps, (MapReader.mk ["a", "b"] (MapReader.zero.CreateHeaderIndexMap ["a", "b"])
        ⟨[ReadOutcome.record ["x", "y"], ReadOutcome.record ["z", "w"]]⟩).ReadAll
          = Except.ok ((some maps, none),
              MapReader.mk ["a", "b"] (MapReader.zero.CreateHeaderIndexMap ["a", "b"]) ⟨[]⟩) ∧
      maps.length = [["x", "y"], ["z", "w"]].length ∧
      List.Forall₂ (fun r mp =>
        (MapReader.mk ["a", "b"] (MapReader.zero.CreateHeaderIndexMap ["a", "b"])
          ⟨[ReadOutcome.record ["x", "y"], ReadOutcome.record ["z", "w"]]⟩).CreateRowMap r
            = Except.ok mp) [["x", "y"], ["z", "w"]] maps ∧
      ([["x", "y"], ["z", "w"]] = [] → maps = []) :=
  readAll_bulk_success
    (MapReader.mk ["a", "b"] (MapReader.zero.CreateHeaderIndexMap ["a", "b"])
      ⟨[ReadOutcome.record ["x", "y"], ReadOutcome.record ["z", "w"]]⟩)
    [["x", "y"], ["z", "w"]] ⟨[]⟩ (by decide) (by decide)

/-- C6: end to end. For a source whose records are `r0, r1, ..., rn`, with the
names of `r0` pairwise distinct and every `ri` as long as `r0`, `NewReader` followed
by `ReadAll` succeeds and returns `n` maps in source order; the `i`-th has exactly
the names of `r0` as keys and sends `r0[k]` to `ri[k]` for every `k`. -/
theorem newReader_readAll_end_to_end (r0 : List String) (rows : List (List String))
    (hnd : r0.Nodup) (hlen : ∀ r ∈ rows, r.length = r0.length) :
    ∃ m maps, NewReader ⟨(r0 :: rows).map ReadOutcome.record⟩ = (some m, none) ∧
      m.ReadAll = Except.ok ((some maps, none), { m with Reader := ⟨[]⟩ }) ∧
      maps.length = rows.length ∧
      ∀ (i : Nat) (hi : i < rows.length) (hi2 : i < maps.length),
        maps[i].WF ∧ (∀ name, name ∈ maps[i].keys ↔ name ∈ r0) ∧
        ∀ (k : Nat) (hk : k < r0.length) (hk2 : k < rows[i].length),
          maps[i].get? r0[k] = some rows[i][k] := by
  let m : MapReader :=
    ⟨r0, MapReader.zero.CreateHeaderIndexMap r0, ⟨rows.map ReadOutcome.record⟩⟩
  have hm : m.HeaderIndexMap = m.CreateHeaderIndexMap r0 := rfl
  have hle : ∀ r ∈ rows, r0.length ≤ r.length := fun r hr => Nat.le_of_eq (hlen r hr).symm
  obtain ⟨maps, hmaps, hall⟩ := MapReader.rangeRecords_ok m rows []
    (fun r hr => (MapReader.CreateRowMap_ok m r0 r hm (hle r hr)).imp fun _ h => h.1)
  refine ⟨m, maps, rfl, ?_, hall.length_eq.symm, ?_⟩
  · have hbulk : m.Reader.ReadAll = ((rows, none), ⟨[]⟩) := by
      have := CsvReader.readAllLoop_records rows []
      simpa [CsvReader.ReadAll, m] using this
    simp only [MapReader.ReadAll, hbulk, hmaps, List.nil_append]
  · intro i hi hi2
    have hrow : m.CreateRowMap rows[i] = Except.ok maps[i] := by
      have := hall.get hi hi2
      simpa using this
    have hmem : rows[i] ∈ rows := List.getElem_mem hi
    obtain ⟨r, hr, hget⟩ := MapReader.CreateRowMap_ok m r0 rows[i] hm (hle _ hmem)
    have e : r = maps[i] := by
      rw [hr] at hrow
      exact Except.ok.inj hrow
    subst e
    refine ⟨MapReader.CreateRowMap_WF m rows[i] _ hr, ?_, ?_⟩
    · intro name
      exact MapReader.CreateRowMap_keys m r0 rows[i] hm (hle _ hmem) _ hget name
    · intro k hk hk2
      rw [MapReader.CreateRowMap_get?_last m r0 rows[i] hm _ hget r0[k] k
        (List.getElem?_eq_getElem hk) (nodup_no_later r0 hnd k hk),
        List.getElem?_eq_getElem hk2]

theorem newReader_readAll_end_to_end_witness :
    (["id", "name"].Nodup ∧
      ∀ r ∈ [["1", "Alice"], ["2", "Bob"]], r.length = ["id", "name"].length) ∧
    (∃ m maps,
      NewReader ⟨(["id", "name"] :: [["1", "Alice"], ["2", "Bob"]]).map ReadOutcome.record⟩
        = (some m, none) ∧
      m.ReadAll = Except.ok ((some maps, none), { m with Reader := ⟨[]⟩ }) ∧
      maps.length = [["1", "Alice"], ["2", "Bob"]].length ∧
      ∀ (i : Nat) (hi : i < [["1", "Alice"], ["2", "Bob"]].length) (hi2 : i < maps.length),
        maps[i].WF ∧ (∀ name, name ∈ maps[i].keys ↔ name ∈ ["id", "name"]) ∧
        ∀ (k : Nat) (hk : k < ["id", "name"].length)
          (hk2 : k < [["1", "Alice"], ["2", "Bob"]][i].length),
          maps[i].get? ["id", "name"][k] = some [["1", "Alice"], ["2", "Bob"]][i][k]) ∧
    (∃ m, NewReader
        ⟨[ReadOutcome.record ["id", "name"], ReadOutcome.record ["1", "Alice"],
          ReadOutcome.record ["2", "Bob"]]⟩ = (some m, none) ∧
      m.ReadAll = Except.ok
        ((some [⟨[("id", "1"), ("name", "Alice")]⟩, ⟨[("id", "2"), ("name", "Bob")]⟩], none),
          { m with Reader := ⟨[]⟩ })) :=
  ⟨⟨by decide, by decide⟩,
    newReader_readAll_end_to_end ["id", "name"] [["1", "Alice"], ["2", "Bob"]]
      (by decide) (by decide),
    ⟨⟨["id", "name"], MapReader.zero.CreateHeaderIndexMap ["id", "name"],
        ⟨[ReadOutcome.record ["1", "Alice"], ReadOutcome.record ["2", "Bob"]]⟩⟩,
      by decide, by decide⟩⟩

/-- C7 as stated fails: the single-record read of the underlying reader returns
the record `["x"]` and no error, yet with the index map of `["a", "b"]` in place
`Read` does not return a map and a `nil` error: it panics on `csvRow[1]`. -/
theorem read_short_record_counterexample :
    (MapReader.mk ["a", "b"] (MapReader.zero.CreateHeaderIndexMap ["a", "b"])
        ⟨[ReadOutcome.record ["x"]]⟩).Reader.Read = ((["x"], none), ⟨[]⟩) ∧
      (MapReader.mk ["a", "b"] (MapReader.zero.CreateHeaderIndexMap ["a", "b"])
        ⟨[ReadOutcome.record ["x"]]⟩).Read = Except.error GoPanic.indexOutOfRange := by
  decide

/-- C7, amended: `Read` returns an error exactly when the single-record read of the
underlying reader returns one; the error returned is then the underlying error
itself (`io.EOF` stays `io.EOF`, any other error stays as it is) and the map is
`nil`. Otherwise, when every position held in `HeaderIndexMap` is a valid index of
the record read, `Read` returns `CreateRowMap` of that record and a `nil` error;
when some position is not, `Read` returns nothing and panics. -/
theorem read_outcome (m : MapReader) (csvRow : List String) (e : Option GoError)
    (reader : CsvReader) (hread : m.Reader.Read = ((csvRow, e), reader)) :
    ((∃ mp err st, m.Read = Except.ok ((mp, some err), st)) ↔ ∃ err, e = some err) ∧
    (∀ err, e = some err →
      m.Read = Except.ok ((none, some err), { m with Reader := reader })) ∧
    (e = none → (∀ en ∈ m.HeaderIndexMap.entries, en.2 < csvRow.length) →
      ∃ mp, m.CreateRowMap csvRow = Except.ok mp ∧
        m.Read = Except.ok ((some mp, none), { m with Reader := reader })) ∧
    (e = none → (∃ en ∈ m.HeaderIndexMap.entries, csvRow.length ≤ en.2) →
      m.Read = Except.error GoPanic.indexOutOfRange) := by
  cases e with
  | some err0 =>
    have hR : m.Read = Except.ok ((none, some err0), { m with Reader := reader }) := by
      simp only [MapReader.Read, hread]
    refine ⟨⟨fun _ => ⟨err0, rfl⟩, fun _ => ⟨none, err0, _, hR⟩⟩, ?_, ?_, ?_⟩
    · intro err he
      cases he
      exact hR
    · intro he
      cases he
    · intro he
      cases he
  | none =>
    have hR : m.Read = match m.CreateRowMap csvRow with
        | Except.error p => Except.error p
        | Except.ok row => Except.ok ((some row, none), { m with Reader := reader }) := by
      simp only [MapReader.Read, hread]
    refine ⟨⟨?_, ?_⟩, ?_, ?_, ?_⟩
    · rintro ⟨mp, err, st, h⟩
      rw [hR] at h
      cases hc : m.CreateRowMap csvRow with
      | error p =>
        rw [hc] at h
        cases h
      | ok row =>
        rw [hc] at h
        cases h
    · rintro ⟨err, he⟩
      cases he
    · intro err he
      cases he
    · intro _ hfit
      obtain ⟨mp, hmp⟩ := MapReader.CreateRowMap_isOk m csvRow hfit
      exact ⟨mp, hmp, by rw [hR, hmp]⟩
    · intro _ hbad
      rw [hR, MapReader.CreateRowMap_panic m csvRow hbad]

theorem read_outcome_witness :
    (∃ mp, (MapReader.mk ["a", "b"] (MapReader.zero.CreateHeaderIndexMap ["a", "b"])
          ⟨[ReadOutcome.record ["x", "y"]]⟩).CreateRowMap ["x", "y"] = Except.ok mp ∧
        (MapReader.mk ["a", "b"] (MapReader.zero.CreateHeaderIndexMap ["a", "b"])
          ⟨[ReadOutcome.record ["x", "y"]]⟩).Read =
          Except.ok ((some mp, none),
            MapReader.mk ["a", "b"] (MapReader.zero.CreateHeaderIndexMap ["a", "b"]) ⟨[]⟩)) ∧
      (MapReader.mk ["a", "b"] (MapReader.zero.CreateHeaderIndexMap ["a", "b"]) ⟨[]⟩).Read =
        Except.ok ((none, some GoError.EOF),
          MapReader.mk ["a", "b"] (MapReader.zero.CreateHeaderIndexMap ["a", "b"]) ⟨[]⟩) :=
  ⟨(read_outcome
      (MapReader.mk ["a", "b"] (MapReader.zero.CreateHeaderIndexMap ["a", "b"])
        ⟨[ReadOutcome.record ["x", "y"]]⟩)
      ["x", "y"] none ⟨[]⟩ (by decide)).2.2.1 rfl (by decide),
    (read_outcome
      (MapReader.mk ["a", "b"] (MapReader.zero.CreateHeaderIndexMap ["a", "b"]) ⟨[]⟩)
      [] (some GoError.EOF) ⟨[]⟩ (by decide)).2.1 GoError.EOF rfl⟩

/-- C8: when the initial header read of the underlying reader fails, `NewReader`
returns a `nil` MapReader together with exactly that error; on a totally empty
input the error is `io.EOF`; and `NewReader` never returns a MapReader alongside an
error. -/
theorem newReader_header_read_fails (file : File) :
    (∀ fields err reader, (csvNewReader file).Read = ((fields, some err), reader) →
      NewReader file = (none, some err)) ∧
    (file.contents = [] → NewReader file = (none, some GoError.EOF)) ∧
    (∀ mr err, NewReader file = (mr, some err) → mr = none) := by
  refine ⟨?_, ?_, ?_⟩
  · intro fields err reader h
    simp only [NewReader, h]
  · intro h
    have hread : (csvNewReader file).Read = (([], some GoError.EOF), csvNewReader file) := by
      simp [csvNewReader, CsvReader.Read, h]
    simp only [NewReader, hread]
  · intro mr err h
    rcases hread : (csvNewReader file).Read with ⟨⟨fields, e⟩, reader⟩
    cases e with
    | some err0 =>
      simp only [NewReader, hread] at h
      exact (Prod.mk.inj h).1.symm
    | none =>
      simp only [NewReader, hread] at h
      have := (Prod.mk.inj h).2
      cases this

theorem newReader_header_read_fails_witness :
    NewReader ⟨[]⟩ = (none, some GoError.EOF) ∧
      NewReader ⟨[ReadOutcome.failure ["a"] "bare quote", ReadOutcome.record ["b"]]⟩
        = (none, some (GoError.other "bare quote")) :=
  ⟨(newReader_header_read_fails ⟨[]⟩).2.1 rfl,
    (newReader_header_read_fails
      ⟨[ReadOutcome.failure ["a"] "bare quote", ReadOutcome.record ["b"]]⟩).1
      ["a"] (GoError.other "bare quote") ⟨[ReadOutcome.record ["b"]]⟩ (by decide)⟩

/-- C9: when the first record `r0` of the source is read successfully, `NewReader`
returns a MapReader with `Headers = r0` and `HeaderIndexMap = CreateHeaderIndexMap(r0)`
whose reader has consumed exactly that one record; the next read of the reader
yields the second record of the source, and `Read` translates that record when it is
at least as long as `r0`. -/
theorem newReader_consumes_header (file : File) (r0 : List String) (reader : CsvReader)
    (hread : (csvNewReader file).Read = ((r0, none), reader)) :
    ∃ m, NewReader file = (some m, none) ∧ m.Headers = r0 ∧
      m.HeaderIndexMap = m.CreateHeaderIndexMap r0 ∧
      m.Reader = reader ∧ file.contents = ReadOutcome.record r0 :: m.Reader.pending ∧
      ∀ r1 rest, m.Reader.pending = ReadOutcome.record r1 :: rest →
        m.Reader.Read = ((r1, none), ⟨rest⟩) ∧
        (r0.length ≤ r1.length →
          ∃ mp, m.CreateRowMap r1 = Except.ok mp ∧
            m.Read = Except.ok ((some mp, none), { m with Reader := ⟨rest⟩ })) := by
  refine ⟨⟨r0, MapReader.zero.CreateHeaderIndexMap r0, reader⟩, ?_, rfl, rfl, rfl, ?_, ?_⟩
  · simp only [NewReader, hread]
  · rcases file with ⟨contents⟩
    cases contents with
    | nil => simp [csvNewReader, CsvReader.Read] at hread
    | cons o rest =>
      cases o with
      | record fields =>
        simp only [csvNewReader, CsvReader.Read, Prod.mk.injEq] at hread
        obtain ⟨⟨h1, _⟩, h2⟩ := hread
        subst h1
        subst h2
        rfl
      | failure fields msg => simp [csvNewReader, CsvReader.Read] at hread
  · intro r1 rest hpend
    have hrd : reader.Read = ((r1, none), ⟨rest⟩) := by
      change reader.pending = _ at hpend
      simp only [CsvReader.Read, hpend]
    refine ⟨hrd, ?_⟩
    intro hle
    obtain ⟨mp, hmp, _⟩ := MapReader.CreateRowMap_ok
      ⟨r0, MapReader.zero.CreateHeaderIndexMap r0, reader⟩ r0 r1 rfl hle
    refine ⟨mp, hmp, ?_⟩
    simp only [MapReader.Read, hrd, hmp]

theorem newReader_consumes_header_witness :
    ∃ m, NewReader ⟨[ReadOutcome.record ["a", "b"], ReadOutcome.record ["x", "y"],
          ReadOutcome.record ["z", "w"]]⟩ = (some m, none) ∧
      m.Headers = ["a", "b"] ∧
      m.HeaderIndexMap = m.CreateHeaderIndexMap ["a", "b"] ∧
      m.Reader = ⟨[ReadOutcome.record ["x", "y"], ReadOutcome.record ["z", "w"]]⟩ ∧
      (File.mk [ReadOutcome.record ["a", "b"], ReadOutcome.record ["x", "y"],
          ReadOutcome.record ["z", "w"]]).contents
        = ReadOutcome.record ["a", "b"] :: m.Reader.pending ∧
      ∀ r1 rest, m.Reader.pending = ReadOutcome.record r1 :: rest →
        m.Reader.Read = ((r1, none), ⟨rest⟩) ∧
        (["a", "b"].length ≤ r1.length →
          ∃ mp, m.CreateRowMap r1 = Except.ok mp ∧
            m.Read = Except.ok ((some mp, none), { m with Reader := ⟨rest⟩ })) :=
  newReader_consumes_header
    ⟨[ReadOutcome.record ["a", "b"], ReadOutcome.record ["x", "y"],
      ReadOutcome.record ["z", "w"]]⟩
    ["a", "b"] ⟨[ReadOutcome.record ["x", "y"], ReadOutcome.record ["z", "w"]]⟩ (by decide)

/-- C10 as stated fails: with the header `["a", "b", "c"]` and the row `["x", "y"]`,
`CreateRowMap` fails with the generic index-out-of-range panic, and `Read` on that
row panics the same way instead of returning an error value. -/
theorem createRowMap_short_row_counterexample :
    (MapReader.mk ["a", "b", "c"] (MapReader.zero.CreateHeaderIndexMap ["a", "b", "c"])
        ⟨[ReadOutcome.record ["x", "y"]]⟩).CreateRowMap ["x", "y"]
        = Except.error GoPanic.indexOutOfRange ∧
      (MapReader.mk ["a", "b", "c"] (MapReader.zero.CreateHeaderIndexMap ["a", "b", "c"])
        ⟨[ReadOutcome.record ["x", "y"]]⟩).Read = Except.error GoPanic.indexOutOfRange ∧
      ¬ ∃ mp err st,
        (MapReader.mk ["a", "b", "c"] (MapReader.zero.CreateHeaderIndexMap ["a", "b", "c"])
          ⟨[ReadOutcome.record ["x", "y"]]⟩).Read = Except.ok ((mp, some err), st) := by
  refine ⟨by decide, by decide, ?_⟩
  rintro ⟨mp, err, st, h⟩
  have e : (MapReader.mk ["a", "b", "c"] (MapReader.zero.CreateHeaderIndexMap ["a", "b", "c"])
      ⟨[ReadOutcome.record ["x", "y"]]⟩).Read = Except.error GoPanic.indexOutOfRange := by
    decide
  rw [e] at h
  cases h

/-- C10, amended: for every header sequence `H` and every row `R` with fewer fields
than `H`, with `HeaderIndexMap = CreateHeaderIndexMap(H)`, `CreateRowMap(R)` returns
no map, truncated or not: it fails with the generic index-out-of-range panic, there
being no length validation; and `Read` panics the same way when the underlying
reader hands it `R` without an error. -/
theorem createRowMap_short_row_panics (m : MapReader) (H R : List String)
    (hm : m.HeaderIndexMap = m.CreateHeaderIndexMap H) (hshort : R.length < H.length) :
    m.CreateRowMap R = Except.error GoPanic.indexOutOfRange ∧
      ∀ reader, m.Reader.Read = ((R, none), reader) →
        m.Read = Except.error GoPanic.indexOutOfRange := by
  have hp := MapReader.CreateRowMap_short m H R hm hshort
  refine ⟨hp, ?_⟩
  intro reader hread
  simp only [MapReader.Read, hread, hp]

theorem createRowMap_short_row_panics_witness :
    ["x", "y"].length < ["a", "b", "c"].length ∧
      (MapReader.mk ["a", "b", "c"] (MapReader.zero.CreateHeaderIndexMap ["a", "b", "c"])
        ⟨[ReadOutcome.record ["x", "y"]]⟩).CreateRowMap ["x", "y"]
        = Except.error GoPanic.indexOutOfRange ∧
      (MapReader.mk ["a", "b", "c"] (MapReader.zero.CreateHeaderIndexMap ["a", "b", "c"])
        ⟨[ReadOutcome.record ["x", "y"]]⟩).Read = Except.error GoPanic.indexOutOfRange :=
  ⟨by decide,
    (createRowMap_short_row_panics
      (MapReader.mk ["a", "b", "c"] (MapReader.zero.CreateHeaderIndexMap ["a", "b", "c"])
        ⟨[ReadOutcome.record ["x", "y"]]⟩)
      ["a", "b", "c"] ["x", "y"] rfl (by decide)).1,
    (createRowMap_short_row_panics
      (MapReader.mk ["a", "b", "c"] (MapReader.zero.CreateHeaderIndexMap ["a", "b", "c"])
        ⟨[ReadOutcome.record ["x", "y"]]⟩)
      ["a", "b", "c"] ["x", "y"] rfl (by decide)).2 ⟨[]⟩ (by decide)⟩

/-- C11 as stated fails: with the index map of `["a", "b"]` and a reader whose bulk
read succeeds with the records `["x", "y"]` and `["z"]`, `ReadAll` returns neither a
sequence with a `nil` error nor an error with a `nil` sequence: it panics. -/
theorem readAll_neither_counterexample :
    (MapReader.mk ["a", "b"] (MapReader.zero.CreateHeaderIndexMap ["a", "b"])
        ⟨[ReadOutcome.record ["x", "y"], ReadOutcome.record ["z"]]⟩).ReadAll
        = Except.error GoPanic.indexOutOfRange ∧
      (¬ ∃ maps st,
        (MapReader.mk ["a", "b"] (MapReader.zero.CreateHeaderIndexMap ["a", "b"])
          ⟨[ReadOutcome.record ["x", "y"], ReadOutcome.record ["z"]]⟩).ReadAll
          = Except.ok ((some maps, none), st)) ∧
      ¬ ∃ err st,
        (MapReader.mk ["a", "b"] (MapReader.zero.CreateHeaderIndexMap ["a", "b"])
          ⟨[ReadOutcome.record ["x", "y"], ReadOutcome.record ["z"]]⟩).ReadAll
          = Except.ok ((none, some err), st) := by
  have e : (MapReader.mk ["a", "b"] (MapReader.zero.CreateHeaderIndexMap ["a", "b"])
      ⟨[ReadOutcome.record ["x", "y"], ReadOutcome.record ["z"]]⟩).ReadAll
      = Except.error GoPanic.indexOutOfRange := by decide
  refine ⟨e, ?_, ?_⟩
  · rintro ⟨maps, st, h⟩
    rw [e] at h
    cases h
  · rintro ⟨err, st, h⟩
    rw [e] at h
    cases h

/-- C11, amended: for every reader state, `ReadAll` ends in one of three ways: it
returns the complete sequence of mapped records with a `nil` error; or the bulk read
of the underlying reader fails and it returns that error with a `nil` sequence; or
the bulk read succeeds, some record fails to translate, and it panics, returning
nothing. Whenever it returns a sequence, the error is `nil` and the sequence holds
the map of every record read, in order: never only the records translated so far. -/
theorem readAll_all_or_nothing (m : MapReader) :
    ((∃ maps, m.Reader.ReadAll.1.2 = none ∧
        m.ReadAll = Except.ok ((some maps, none), { m with Reader := m.Reader.ReadAll.2 }) ∧
        List.Forall₂ (fun r mp => m.CreateRowMap r = Except.ok mp) m.Reader.ReadAll.1.1 maps) ∨
      (∃ err, m.Reader.ReadAll.1.2 = some err ∧
        m.ReadAll = Except.ok ((none, some err), { m with Reader := m.Reader.ReadAll.2 })) ∨
      (m.Reader.ReadAll.1.2 = none ∧
        (∃ r ∈ m.Reader.ReadAll.1.1, m.CreateRowMap r = Except.error GoPanic.indexOutOfRange) ∧
        m.ReadAll = Except.error GoPanic.indexOutOfRange)) ∧
    ∀ maps e st, m.ReadAll = Except.ok ((some maps, e), st) →
      e = none ∧
      List.Forall₂ (fun r mp => m.CreateRowMap r = Except.ok mp) m.Reader.ReadAll.1.1 maps := by
  have hR : m.ReadAll = match m.Reader.ReadAll with
      | ((_, some err), reader) => Except.ok ((none, some err), { m with Reader := reader })
      | ((records, none), reader) =>
        match MapReader.rangeRecords m records [] with
        | Except.error p => Except.error p
        | Except.ok results => Except.ok ((some results, none), { m with Reader := reader }) :=
    rfl
  rcases hbulk : m.Reader.ReadAll with ⟨⟨records, e⟩, reader⟩
  rw [hbulk] at hR
  cases e with
  | some err =>
    simp only at hR
    refine ⟨Or.inr (Or.inl ⟨err, rfl, hR⟩), ?_⟩
    intro maps e st h
    rw [hR] at h
    simp at h
  | none =>
    simp only at hR
    by_cases hall : ∀ r ∈ records, ∃ mp, m.CreateRowMap r = Except.ok mp
    · obtain ⟨maps, hmaps, hf⟩ := MapReader.rangeRecords_ok m records [] hall
      rw [hmaps, List.nil_append] at hR
      refine ⟨Or.inl ⟨maps, rfl, hR, hf⟩, ?_⟩
      intro maps2 e st h
      rw [hR] at h
      simp only [Except.ok.injEq, Prod.mk.injEq, Option.some.injEq] at h
      obtain ⟨⟨h1, h2⟩, _⟩ := h
      subst h1
      exact ⟨h2.symm, hf⟩
    · have hbad : ∃ r ∈ records, m.CreateRowMap r = Except.error GoPanic.indexOutOfRange := by
        by_contra hno
        apply hall
        intro r hr
        cases hc : m.CreateRowMap r with
        | error p =>
          cases p
          exact absurd ⟨r, hr, hc⟩ hno
        | ok mp => exact ⟨mp, rfl⟩
      rw [MapReader.rangeRecords_panic m records [] hbad] at hR
      refine ⟨Or.inr (Or.inr ⟨rfl, hbad, hR⟩), ?_⟩
      intro maps e st h
      rw [hR] at h
      cases h

/-- C12: the doc comment on `CreateHeaderIndexMap` says that the header row
`["one", "two", "three"]` gives the map { "one": 1, "two": 2, "three": 3 }.  The code
gives the zero-based positions 0, 1, 2 instead: no name is mapped to the value the
comment announces. -/
theorem createHeaderIndexMap_doc_comment_example :
    MapReader.zero.CreateHeaderIndexMap ["one", "two", "three"]
        = ⟨[("one", 0), ("two", 1), ("three", 2)]⟩ ∧
      (MapReader.zero.CreateHeaderIndexMap ["one", "two", "three"]).get? "one" ≠ some 1 ∧
      (MapReader.zero.CreateHeaderIndexMap ["one", "two", "three"]).get? "two" ≠ some 2 ∧
      (MapReader.zero.CreateHeaderIndexMap ["one", "two", "three"]).get? "three" ≠ some 3 := by
  decide

/-- C13: `CreateHeaderIndexMap` of the empty header sequence is the empty map, and
with that map as `HeaderIndexMap`, `CreateRowMap(R)` returns the empty map for every
record `R`, the empty record included. -/
theorem createRowMap_empty_headers (m : MapReader)
    (hm : m.HeaderIndexMap = m.CreateHeaderIndexMap []) :
    m.CreateHeaderIndexMap [] = GoMap.empty ∧
      (∀ R : List String, m.CreateRowMap R = Except.ok GoMap.empty) ∧
      m.CreateRowMap [] = Except.ok GoMap.empty := by
  have hall : ∀ R : List String, m.CreateRowMap R = Except.ok GoMap.empty := by
    intro R
    unfold MapReader.CreateRowMap
    rw [hm]
    rfl
  exact ⟨rfl, hall, hall []⟩

theorem createRowMap_empty_headers_witness :
    MapReader.zero.CreateHeaderIndexMap [] = GoMap.empty ∧
      (∀ R : List String, MapReader.zero.CreateRowMap R = Except.ok GoMap.empty) ∧
      MapReader.zero.CreateRowMap [] = Except.ok GoMap.empty :=
  createRowMap_empty_headers MapReader.zero rfl

/-- C14: for every header sequence `H` (the ones with repeated names included) and
every record `R` of the same length, with `HeaderIndexMap = CreateHeaderIndexMap(H)`,
`CreateRowMap(R)` returns a map with exactly one entry for each distinct name of `H`,
and the value of a name is the field of `R` at the position of the last occurrence
of that name in `H`. -/
theorem createRowMap_one_entry_per_name (m : MapReader) (H R : List String)
    (hlen : R.length = H.length) (hm : m.HeaderIndexMap = m.CreateHeaderIndexMap H) :
    ∃ r, m.CreateRowMap R = Except.ok r ∧ r.WF ∧ (∀ name, name ∈ r.keys ↔ name ∈ H) ∧
      r.keys.Perm H.dedup ∧ r.len = H.dedup.length ∧
      ∀ (h : String) (j : Nat) (hj : j < R.length), H[j]? = some h →
        (∀ j2 : Nat, j < j2 → H[j2]? ≠ some h) → r.get? h = some R[j] := by
  have hle : H.length ≤ R.length := Nat.le_of_eq hlen.symm
  obtain ⟨r, hr, hget⟩ := MapReader.CreateRowMap_ok m H R hm hle
  have hwf := MapReader.CreateRowMap_WF m R r hr
  have hkeys := MapReader.CreateRowMap_keys m H R hm hle r hget
  obtain ⟨hperm, hcount⟩ := GoMap.keys_perm_dedup r H hwf hkeys
  refine ⟨r, hr, hwf, hkeys, hperm, hcount, ?_⟩
  intro h j hj hHj hlast
  rw [MapReader.CreateRowMap_get?_last m H R hm r hget h j hHj hlast,
    List.getElem?_eq_getElem hj]

theorem createRowMap_one_entry_per_name_witness :
    (∃ r, (MapReader.mk ["a", "a"] (MapReader.zero.CreateHeaderIndexMap ["a", "a"])
          ⟨[]⟩).CreateRowMap ["x", "y"] = Except.ok r ∧ r.WF ∧
        (∀ name, name ∈ r.keys ↔ name ∈ ["a", "a"]) ∧
        r.keys.Perm ["a", "a"].dedup ∧ r.len = ["a", "a"].dedup.length ∧
        ∀ (h : String) (j : Nat) (hj : j < ["x", "y"].length), ["a", "a"][j]? = some h →
          (∀ j2 : Nat, j < j2 → ["a", "a"][j2]? ≠ some h) →
          r.get? h = some ["x", "y"][j]) ∧
      (MapReader.mk ["a", "a"] (MapReader.zero.CreateHeaderIndexMap ["a", "a"])
          ⟨[]⟩).CreateRowMap ["x", "y"] = Except.ok ⟨[("a", "y")]⟩ :=
  ⟨createRowMap_one_entry_per_name
      (MapReader.mk ["a", "a"] (MapReader.zero.CreateHeaderIndexMap ["a", "a"]) ⟨[]⟩)
      ["a", "a"] ["x", "y"] rfl rfl,
    by decide⟩

/-- C15: for every header sequence `H` (repeated names allowed) and every record
`R`, with `HeaderIndexMap = CreateHeaderIndexMap(H)`, `CreateRowMap(R)` hits an index
out of range exactly when `len(R) < len(H)`, and returns a map exactly when
`len(R) >= len(H)`; the last position `len(H) - 1` of a non-empty `H` is always held
by the index map. -/
theorem createRowMap_out_of_range_iff (m : MapReader) (H R : List String)
    (hm : m.HeaderIndexMap = m.CreateHeaderIndexMap H) :
    (m.CreateRowMap R = Except.error GoPanic.indexOutOfRange ↔ R.length < H.length) ∧
      ((∃ r, m.CreateRowMap R = Except.ok r) ↔ H.length ≤ R.length) ∧
      (0 < H.length → ∃ e ∈ m.HeaderIndexMap.entries, e.2 = H.length - 1) := by
  have hiff := MapReader.CreateRowMap_panic_iff m H R hm
  refine ⟨hiff, ⟨?_, ?_⟩, ?_⟩
  · rintro ⟨r, hr⟩
    by_contra hlt
    rw [hiff.2 (Nat.lt_of_not_le hlt)] at hr
    cases hr
  · intro hle
    exact (MapReader.CreateRowMap_ok m H R hm hle).imp fun _ h => h.1
  · intro hpos
    rw [hm]
    exact MapReader.CreateHeaderIndexMap_last_entry m H hpos

theorem createRowMap_out_of_range_iff_witness :
    ((MapReader.mk ["a", "b", "a"] (MapReader.zero.CreateHeaderIndexMap ["a", "b", "a"])
          ⟨[]⟩).CreateRowMap ["x", "y"] = Except.error GoPanic.indexOutOfRange ↔
        ["x", "y"].length < ["a", "b", "a"].length) ∧
      ((∃ r, (MapReader.mk ["a", "b", "a"]
          (MapReader.zero.CreateHeaderIndexMap ["a", "b", "a"]) ⟨[]⟩).CreateRowMap ["x", "y"]
            = Except.ok r) ↔ ["a", "b", "a"].length ≤ ["x", "y"].length) ∧
      (0 < ["a", "b", "a"].length →
        ∃ e ∈ (MapReader.zero.CreateHeaderIndexMap ["a", "b", "a"]).entries,
          e.2 = ["a", "b", "a"].length - 1) :=
  createRowMap_out_of_range_iff
    (MapReader.mk ["a", "b", "a"] (MapReader.zero.CreateHeaderIndexMap ["a", "b", "a"]) ⟨[]⟩)
    ["a", "b", "a"] ["x", "y"] rfl

/-- C16: starting from a MapReader returned by `NewReader`, every sequence of `Read`,
`ReadAll`, `CreateRowMap` and `CreateHeaderIndexMap` calls leaves `Headers` and
`HeaderIndexMap` as they were, so `HeaderIndexMap = CreateHeaderIndexMap(Headers)`
holds in every state reached; the state differs from the first one only in its
reader, which has moved forward in the source. -/
theorem newReader_fields_unchanged (file : File) (m0 : MapReader)
    (hnew : NewReader file = (some m0, none)) (calls : List Call) :
    (m0.afterCalls calls).Headers = m0.Headers ∧
      (m0.afterCalls calls).HeaderIndexMap = m0.HeaderIndexMap ∧
      (m0.afterCalls calls).HeaderIndexMap =
        (m0.afterCalls calls).CreateHeaderIndexMap (m0.afterCalls calls).Headers ∧
      m0.afterCalls calls = { m0 with Reader := (m0.afterCalls calls).Reader } ∧
      (m0.afterCalls calls).Reader.pending <:+ m0.Reader.pending := by
  obtain ⟨reader, h, hs⟩ := MapReader.afterCalls_eq m0 calls
  have hinv := NewReader_invariant file m0 hnew
  rw [h]
  exact ⟨rfl, rfl, hinv, rfl, hs⟩

theorem newReader_fields_unchanged_witness :
    (MapReader.afterCalls ⟨["a", "b"], MapReader.zero.CreateHeaderIndexMap ["a", "b"],
        ⟨[ReadOutcome.record ["x", "y"], ReadOutcome.record ["z"],
          ReadOutcome.record ["u", "v"]]⟩⟩
      [Call.Read, Call.CreateHeaderIndexMap ["q"], Call.Read, Call.CreateRowMap [],
        Call.ReadAll]).Headers = ["a", "b"] ∧
    (MapReader.afterCalls ⟨["a", "b"], MapReader.zero.CreateHeaderIndexMap ["a", "b"],
        ⟨[ReadOutcome.record ["x", "y"], ReadOutcome.record ["z"],
          ReadOutcome.record ["u", "v"]]⟩⟩
      [Call.Read, Call.CreateHeaderIndexMap ["q"], Call.Read, Call.CreateRowMap [],
        Call.ReadAll]).HeaderIndexMap = MapReader.zero.CreateHeaderIndexMap ["a", "b"] :=
  ⟨(newReader_fields_unchanged
      ⟨[ReadOutcome.record ["a", "b"], ReadOutcome.record ["x", "y"], ReadOutcome.record ["z"],
        ReadOutcome.record ["u", "v"]]⟩
      ⟨["a", "b"], MapReader.zero.CreateHeaderIndexMap ["a", "b"],
        ⟨[ReadOutcome.record ["x", "y"], ReadOutcome.record ["z"],
          ReadOutcome.record ["u", "v"]]⟩⟩
      (by decide)
      [Call.Read, Call.CreateHeaderIndexMap ["q"], Call.Read, Call.CreateRowMap [],
        Call.ReadAll]).1,
    (newReader_fields_unchanged
      ⟨[ReadOutcome.record ["a", "b"], ReadOutcome.record ["x", "y"], ReadOutcome.record ["z"],
        ReadOutcome.record ["u", "v"]]⟩
      ⟨["a", "b"], MapReader.zero.CreateHeaderIndexMap ["a", "b"],
        ⟨[ReadOutcome.record ["x", "y"], ReadOutcome.record ["z"],
          ReadOutcome.record ["u", "v"]]⟩⟩
      (by decide)
      [Call.Read, Call.CreateHeaderIndexMap ["q"], Call.Read, Call.CreateRowMap [],
        Call.ReadAll]).2.1⟩

/-- C17: for every MapReader over a source whose remaining records all parse and all
have at least `len(Headers)` fields, calling `Read` until it signals end-of-source
ends exactly as a single `ReadAll` from the same state does: the same sequence of
mapped records in the same order; and when `HeaderIndexMap` is the index map of
`Headers`, that sequence is returned, with one map for each record. -/
theorem readUntilEOF_eq_readAll (m : MapReader) (rows : List (List String))
    (hparse : m.Reader.pending = rows.map ReadOutcome.record)
    (hlen : ∀ r ∈ rows, m.Headers.length ≤ r.length) :
    m.readUntilEOF = some m.ReadAll ∧
      (m.HeaderIndexMap = m.CreateHeaderIndexMap m.Headers →
        ∃ maps, m.ReadAll = Except.ok ((some maps, none), { m with Reader := ⟨[]⟩ }) ∧
          m.readUntilEOF = some (Except.ok ((some maps, none), { m with Reader := ⟨[]⟩ })) ∧
          maps.length = rows.length ∧
          List.Forall₂ (fun r mp => m.CreateRowMap r = Except.ok mp) rows maps) := by
  have heq := MapReader.readUntilEOF_records m rows hparse
  refine ⟨heq, ?_⟩
  intro hm
  have hbulk : m.Reader.ReadAll = ((rows, none), ⟨[]⟩) := by
    have := CsvReader.readAllLoop_records rows []
    simpa [CsvReader.ReadAll, hparse] using this
  obtain ⟨maps, hmaps, hall⟩ := MapReader.rangeRecords_ok m rows []
    (fun r hr => (MapReader.CreateRowMap_ok m m.Headers r hm (hlen r hr)).imp fun _ h => h.1)
  have hR : m.ReadAll = Except.ok ((some maps, none), { m with Reader := ⟨[]⟩ }) := by
    simp only [MapReader.ReadAll, hbulk, hmaps, List.nil_append]
  exact ⟨maps, hR, by rw [heq, hR], hall.length_eq.symm, hall⟩

theorem readUntilEOF_eq_readAll_witness :
    (MapReader.mk ["a", "b"] (MapReader.zero.CreateHeaderIndexMap ["a", "b"])
        ⟨[ReadOutcome.record ["x", "y"], ReadOutcome.record ["z", "w", "v"]]⟩).readUntilEOF
      = some (MapReader.mk ["a", "b"] (MapReader.zero.CreateHeaderIndexMap ["a", "b"])
          ⟨[ReadOutcome.record ["x", "y"], ReadOutcome.record ["z", "w", "v"]]⟩).ReadAll ∧
    (MapReader.mk ["a", "b"] (MapReader.zero.CreateHeaderIndexMap ["a", "b"])
        ⟨[ReadOutcome.record ["x", "y"], ReadOutcome.record ["z", "w", "v"]]⟩).readUntilEOF
      = some (Except.ok ((some [⟨[("a", "x"), ("b", "y")]⟩, ⟨[("a", "z"), ("b", "w")]⟩], none),
          MapReader.mk ["a", "b"] (MapReader.zero.CreateHeaderIndexMap ["a", "b"]) ⟨[]⟩)) :=
  ⟨(readUntilEOF_eq_readAll
      (MapReader.mk ["a", "b"] (MapReader.zero.CreateHeaderIndexMap ["a", "b"])
        ⟨[ReadOutcome.record ["x", "y"], ReadOutcome.record ["z", "w", "v"]]⟩)
      [["x", "y"], ["z", "w", "v"]] rfl (by decide)).1,
    rfl⟩

/-- C18: for every header sequence `H`, the map `M = CreateHeaderIndexMap(H)` is
well-formed with respect to `H`: no key twice, its keys are exactly the names that
occur in `H` (so its size is the number of distinct names), every value `v` is below
`len(H)`, and `H[M[h]] = h` for every key `h`. -/
theorem createHeaderIndexMap_well_formed (m : MapReader) (H : List String) :
    (m.CreateHeaderIndexMap H).WF ∧
      (∀ h, h ∈ (m.CreateHeaderIndexMap H).keys ↔ h ∈ H) ∧
      (m.CreateHeaderIndexMap H).keys.Perm H.dedup ∧
      (m.CreateHeaderIndexMap H).len = H.dedup.length ∧
      (∀ e ∈ (m.CreateHeaderIndexMap H).entries, e.2 < H.length) ∧
      ∀ h v, (m.CreateHeaderIndexMap H).get? h = some v → v < H.length ∧ H[v]? = some h := by
  have hwf := MapReader.CreateHeaderIndexMap_WF m H
  have hkeys := MapReader.CreateHeaderIndexMap_mem_keys m H
  obtain ⟨hperm, hcount⟩ := GoMap.keys_perm_dedup (m.CreateHeaderIndexMap H) H hwf hkeys
  exact ⟨hwf, hkeys, hperm, hcount, MapReader.CreateHeaderIndexMap_entry_lt m H,
    MapReader.CreateHeaderIndexMap_get?_lt m H⟩

/-- C19: for every header sequence `H` and every record `R` with `len(R) >= len(H)`,
with `HeaderIndexMap = CreateHeaderIndexMap(H)`, `CreateRowMap(R)` returns a map whose
keys are exactly the keys of `HeaderIndexMap` and which is the map `CreateRowMap`
returns for the first `len(H)` fields of `R`: the fields beyond the header length are
dropped and cause no failure. -/
theorem createRowMap_extra_fields_dropped (m : MapReader) (H R : List String)
    (hm : m.HeaderIndexMap = m.CreateHeaderIndexMap H) (hlen : H.length ≤ R.length) :
    ∃ r, m.CreateRowMap R = Except.ok r ∧ r.WF ∧
      (∀ k, k ∈ r.keys ↔ k ∈ m.HeaderIndexMap.keys) ∧
      r.keys.Perm m.HeaderIndexMap.keys ∧
      m.CreateRowMap (R.take H.length) = Except.ok r := by
  obtain ⟨r, hr, hget⟩ := MapReader.CreateRowMap_ok m H R hm hlen
  have hwf := MapReader.CreateRowMap_WF m R r hr
  have hkeys : ∀ k, k ∈ r.keys ↔ k ∈ m.HeaderIndexMap.keys := by
    intro k
    rw [MapReader.CreateRowMap_keys m H R hm hlen r hget k, hm,
      MapReader.CreateHeaderIndexMap_mem_keys m H k]
  have hwfM : m.HeaderIndexMap.WF := by
    rw [hm]
    exact MapReader.CreateHeaderIndexMap_WF m H
  refine ⟨r, hr, hwf, hkeys, (List.perm_ext_iff_of_nodup hwf hwfM).2 hkeys, ?_⟩
  rw [← hr]
  unfold MapReader.CreateRowMap
  apply MapReader.rangeIndexMap_congr
  intro e he
  rw [hm] at he
  exact List.getElem?_take_of_lt (MapReader.CreateHeaderIndexMap_entry_lt m H e he)

theorem createRowMap_extra_fields_dropped_witness :
    ["a", "b"].length ≤ ["x", "y", "z"].length ∧
      ∃ r, (MapReader.mk ["a", "b"] (MapReader.zero.CreateHeaderIndexMap ["a", "b"])
          ⟨[]⟩).CreateRowMap ["x", "y", "z"] = Except.ok r ∧ r.WF ∧
        (∀ k, k ∈ r.keys ↔ k ∈ (MapReader.zero.CreateHeaderIndexMap ["a", "b"]).keys) ∧
        r.keys.Perm (MapReader.zero.CreateHeaderIndexMap ["a", "b"]).keys ∧
        (MapReader.mk ["a", "b"] (MapReader.zero.CreateHeaderIndexMap ["a", "b"])
          ⟨[]⟩).CreateRowMap (["x", "y", "z"].take ["a", "b"].length) = Except.ok r :=
  ⟨by decide,
    createRowMap_extra_fields_dropped
      (MapReader.mk ["a", "b"] (MapReader.zero.CreateHeaderIndexMap ["a", "b"]) ⟨[]⟩)
      ["a", "b"] ["x", "y", "z"] rfl (by decide)⟩

end Cartogopher
